import Mathlib

set_option maxRecDepth 16384

/-!
Verification of the SM2 core of sm-crypto-v3 (src/sm2/index.ts, given as
src/unnamed/part_001) against its natural-language specification.

The module under verification imports collaborators that the specification
explicitly treats as external: the SM3 hash, the curve/field arithmetic
(noble-curves), hex/UTF-8 conversion utilities, and the ASN.1 codec.  Those
collaborator files are not part of the verified sources, so they are modelled
here from the specification's description of their contracts (each such
definition carries a doc comment starting with `Modelled from the spec:`).
The SM2 module itself (doEncrypt, xorCipherStream, doDecrypt, doSignature,
doVerifySignature, getZ, getHash, getPublicKeyFromPrivateKey) is translated
statement by statement from the source.

Representation choices:
* JS `Uint8Array` buffers are `List Nat` with every element `< 256`;
* JS strings are Lean `String`; `substring` and friends operate on `.data`;
* JS `bigint` values are `Nat` (or `Int` where the source subtracts);
* randomness (the ephemeral scalar drawn by `generateKeyPairHex`, and the
  stream of points consumed by the signing loop) is determinized into
  explicit parameters;
* JS exceptions are `Except String`.
-/

namespace SmCrypto

/-! ## Hex string utilities (Modelled from the spec: hex conversion helpers of
`utils.ts` / `@noble/curves/abstract/utils`, which are external collaborators:
"hex/UTF-8 conversion utilities" are out of scope of the spec core.) -/

/-- Modelled from the spec: the eight low hex digits. -/
def hexDigitsLow : List Char := ['0', '1', '2', '3', '4', '5', '6', '7']

/-- Modelled from the spec: the eight high lowercase hex digits. -/
def hexDigitsHigh : List Char := ['8', '9', 'a', 'b', 'c', 'd', 'e', 'f']

/-- Modelled from the spec: the sixteen lowercase hex digits ("hex outputs are
lowercase"). -/
def hexDigits : List Char := hexDigitsLow ++ hexDigitsHigh

/-- Modelled from the spec: digit value `v < 16` to its lowercase hex char. -/
def hexDigit (v : Nat) : Char := hexDigits.getD v '0'

/-- Modelled from the spec: one byte to two lowercase hex chars. -/
def byteToHexChars (b : Nat) : List Char := [hexDigit (b / 16), hexDigit (b % 16)]

/-- Modelled from the spec: `bytesToHex` of `sm3/utils` — a byte buffer to its
lowercase hex string. -/
def bytesToHex (bs : List Nat) : String := ⟨bs.flatMap byteToHexChars⟩

/-- Modelled from the spec: `arrayToHex` of `utils.ts`; same behaviour as
`bytesToHex` (lowercase hex of a byte array). -/
def arrayToHex (bs : List Nat) : String := bytesToHex bs

/-- Modelled from the spec: value of one hex character, case-insensitive
("hex inputs are parsed case-insensitively"); non-hex characters map to 0. -/
def hexCharVal (c : Char) : Nat :=
  let v := c.toNat
  if 48 ≤ v ∧ v ≤ 57 then v - 48
  else if 97 ≤ v ∧ v ≤ 102 then v - 87
  else if 65 ≤ v ∧ v ≤ 70 then v - 55
  else 0

/-- Modelled from the spec: core of `hexToArray` — consume a character list two
characters per byte (JS `parseInt(hexStr.substr(i, 2), 16)` on a trailing lone
character parses that single digit). -/
def hexPairsToBytes : List Char → List Nat
  | [] => []
  | [c] => [hexCharVal c]
  | c1 :: c2 :: rest => (16 * hexCharVal c1 + hexCharVal c2) :: hexPairsToBytes rest

/-- Modelled from the spec: `hexToArray` of `utils.ts` — a hex string to a byte
buffer, two characters per byte (a trailing lone character parses alone). -/
def hexToArray (s : String) : List Nat := hexPairsToBytes s.data

/-- Modelled from the spec: `hexToNumber` of noble's utils — big-endian hex
string to an unsigned integer (the empty string parses to 0). -/
def hexToNumber (s : String) : Nat :=
  s.data.foldl (fun acc c => 16 * acc + hexCharVal c) 0

/-- Minimal-length hex digits of `v`, most significant first; the first
argument is recursion fuel (always called with fuel `≥ v`). -/
def natToHexAux : Nat → Nat → List Char → List Char
  | 0, _, acc => acc
  | fuel + 1, v, acc =>
    if v = 0 then acc else natToHexAux fuel (v / 16) (hexDigit (v % 16) :: acc)

/-- Modelled from the spec: minimal hex representation of an integer
(`toString(16)` of the big-integer collaborator); 0 renders as "0". -/
def numberToHexCore (v : Nat) : String :=
  if v = 0 then "0" else ⟨natToHexAux v v []⟩

/-- Modelled from the spec: `numberToHexUnpadded` of noble's utils — minimal
hex, left-padded with a single `0` when its length is odd. -/
def numberToHexUnpadded (v : Nat) : String :=
  let hex := numberToHexCore v
  if hex.length % 2 = 1 then "0" ++ hex else hex

/-- Modelled from the spec: `leftPad` of `utils.ts` — zero-pad a string on the
left up to `num` characters; longer inputs are returned unchanged. -/
def leftPad (input : String) (num : Nat) : String :=
  if num ≤ input.length then input
  else ⟨List.replicate (num - input.length) '0'⟩ ++ input

/-- Modelled from the spec: JS `toLowerCase` restricted to the characters the
library produces (ASCII). -/
def strToLower (s : String) : String := ⟨s.data.map Char.toLower⟩

/-! ### Lemmas about the hex utilities -/

theorem hexCharVal_lt (c : Char) : hexCharVal c < 16 := by
  unfold hexCharVal
  dsimp only
  split <;> [omega; skip]
  split <;> [omega; skip]
  split <;> omega

theorem hexCharVal_hexDigit {d : Nat} (h : d < 16) : hexCharVal (hexDigit d) = d := by
  interval_cases d <;> decide

theorem hexPairsToBytes_byte_cons (b : Nat) (hb : b < 256) (rest : List Char) :
    hexPairsToBytes (byteToHexChars b ++ rest) = b :: hexPairsToBytes rest := by
  have h1 : b / 16 < 16 := by omega
  have h2 : b % 16 < 16 := by omega
  simp only [byteToHexChars, List.cons_append, List.nil_append, hexPairsToBytes,
    hexCharVal_hexDigit h1, hexCharVal_hexDigit h2]
  congr 1
  omega

theorem hexToArray_bytesToHex {bs : List Nat} (h : ∀ b ∈ bs, b < 256) :
    hexToArray (bytesToHex bs) = bs := by
  induction bs with
  | nil => rfl
  | cons b rest ih =>
    have hb : b < 256 := h b (by simp)
    have hrest : ∀ x ∈ rest, x < 256 := fun x hx => h x (by simp [hx])
    simp only [hexToArray, bytesToHex, List.flatMap_cons] at *
    rw [hexPairsToBytes_byte_cons b hb]
    exact congrArg (b :: ·) (ih hrest)

theorem length_hexPairsToBytes (cs : List Char) :
    (hexPairsToBytes cs).length = (cs.length + 1) / 2 := by
  induction cs using hexPairsToBytes.induct with
  | case1 => rfl
  | case2 c => simp [hexPairsToBytes]
  | case3 c1 c2 rest ih =>
    simp only [hexPairsToBytes, List.length_cons, ih]
    omega

theorem hexPairsToBytes_append {l1 l2 : List Char} (h : l1.length % 2 = 0) :
    hexPairsToBytes (l1 ++ l2) = hexPairsToBytes l1 ++ hexPairsToBytes l2 := by
  induction l1 using hexPairsToBytes.induct with
  | case1 => rfl
  | case2 c => simp at h
  | case3 c1 c2 rest ih =>
    simp only [List.length_cons] at h
    simp only [List.cons_append, hexPairsToBytes]
    simp [ih (by omega)]

theorem hexPairsToBytes_lt (cs : List Char) : ∀ b ∈ hexPairsToBytes cs, b < 256 := by
  induction cs using hexPairsToBytes.induct with
  | case1 => simp [hexPairsToBytes]
  | case2 c =>
    simp only [hexPairsToBytes, List.mem_singleton]
    rintro b rfl
    have := hexCharVal_lt c
    omega
  | case3 c1 c2 rest ih =>
    simp only [hexPairsToBytes, List.mem_cons]
    rintro b (rfl | hb)
    · have := hexCharVal_lt c1
      have := hexCharVal_lt c2
      omega
    · exact ih b hb

theorem hexToArray_lt (s : String) : ∀ b ∈ hexToArray s, b < 256 :=
  hexPairsToBytes_lt s.data

theorem length_bytesToHex (bs : List Nat) : (bytesToHex bs).length = 2 * bs.length := by
  induction bs with
  | nil => rfl
  | cons b rest ih =>
    show ((b :: rest).flatMap byteToHexChars).length = 2 * (b :: rest).length
    rw [List.flatMap_cons, List.length_append]
    have h2 : (byteToHexChars b).length = 2 := rfl
    have ih' : (rest.flatMap byteToHexChars).length = 2 * rest.length := ih
    rw [h2, ih', List.length_cons]
    omega

theorem data_bytesToHex (bs : List Nat) : (bytesToHex bs).data = bs.flatMap byteToHexChars := rfl

theorem data_append (s t : String) : (s ++ t).data = s.data ++ t.data := by
  cases s; cases t; rfl

theorem length_append_str (s t : String) : (s ++ t).length = s.length + t.length := by
  show (s ++ t).data.length = s.data.length + t.data.length
  rw [data_append, List.length_append]

/-- Big-endian value of a hex digit string (the folding step of
`hexToNumber`). -/
def hexVal (cs : List Char) : Nat := cs.foldl (fun acc c => 16 * acc + hexCharVal c) 0

theorem hexToNumber_eq_hexVal (s : String) : hexToNumber s = hexVal s.data := rfl

theorem hexVal_shift (cs : List Char) :
    ∀ a, cs.foldl (fun acc c => 16 * acc + hexCharVal c) a = a * 16 ^ cs.length + hexVal cs := by
  induction cs with
  | nil => intro a; simp [hexVal]
  | cons c rest ih =>
    intro a
    simp only [List.foldl_cons, List.length_cons, hexVal, Nat.mul_zero, Nat.zero_add] at *
    rw [ih (16 * a + hexCharVal c), ih (hexCharVal c)]
    ring

theorem hexVal_append (l1 l2 : List Char) :
    hexVal (l1 ++ l2) = hexVal l1 * 16 ^ l2.length + hexVal l2 := by
  simp only [hexVal, List.foldl_append]
  rw [hexVal_shift l2 (List.foldl _ 0 l1)]
  rfl

theorem natToHexAux_acc (fuel : Nat) :
    ∀ v acc, natToHexAux fuel v acc = natToHexAux fuel v [] ++ acc := by
  induction fuel with
  | zero => intro v acc; rfl
  | succ fuel ih =>
    intro v acc
    by_cases hv : v = 0
    · simp [natToHexAux, hv]
    · simp only [natToHexAux, if_neg hv]
      rw [ih (v / 16) [hexDigit (v % 16)], ih (v / 16) (hexDigit (v % 16) :: acc)]
      simp

theorem hexVal_natToHexAux (fuel : Nat) :
    ∀ v, v ≤ fuel → hexVal (natToHexAux fuel v []) = v := by
  induction fuel with
  | zero => intro v hv; interval_cases v; rfl
  | succ fuel ih =>
    intro v hv
    by_cases h0 : v = 0
    · simp [natToHexAux, h0, hexVal]
    · simp only [natToHexAux, if_neg h0]
      rw [natToHexAux_acc, hexVal_append]
      have hdiv : v / 16 ≤ fuel := by
        have := Nat.div_lt_self (Nat.pos_of_ne_zero h0) (by norm_num : 1 < 16)
        omega
      rw [ih (v / 16) hdiv]
      have hd : hexCharVal (hexDigit (v % 16)) = v % 16 := hexCharVal_hexDigit (by omega)
      simp only [List.length_cons, List.length_nil, pow_one, hexVal, List.foldl_cons,
        List.foldl_nil, hd]
      omega

theorem length_natToHexAux (fuel : Nat) :
    ∀ v k, v < 16 ^ k → (natToHexAux fuel v []).length ≤ k := by
  induction fuel with
  | zero => intro v k _; simp [natToHexAux]
  | succ fuel ih =>
    intro v k hv
    by_cases h0 : v = 0
    · simp [natToHexAux, h0]
    · simp only [natToHexAux, if_neg h0]
      rw [natToHexAux_acc]
      have hk : k ≠ 0 := by
        rintro rfl
        simp at hv
        omega
      obtain ⟨k', rfl⟩ : ∃ k', k = k' + 1 := ⟨k - 1, by omega⟩
      have hdiv : v / 16 < 16 ^ k' := by
        rw [Nat.div_lt_iff_lt_mul (by norm_num : 0 < 16)]
        calc v < 16 ^ (k' + 1) := hv
        _ = 16 ^ k' * 16 := by ring
      have := ih (v / 16) k' hdiv
      simp only [List.length_append, List.length_cons, List.length_nil]
      omega

theorem hexVal_zero_cons (cs : List Char) : hexVal ('0' :: cs) = hexVal cs := rfl

theorem hexVal_replicate_zero (k : Nat) (cs : List Char) :
    hexVal (List.replicate k '0' ++ cs) = hexVal cs := by
  induction k with
  | zero => rfl
  | succ k ih => rw [List.replicate_succ, List.cons_append, hexVal_zero_cons, ih]

theorem hexToNumber_numberToHexCore (v : Nat) : hexToNumber (numberToHexCore v) = v := by
  unfold numberToHexCore
  by_cases h0 : v = 0
  · simp [h0]; rfl
  · rw [if_neg h0, hexToNumber_eq_hexVal]
    exact hexVal_natToHexAux v v le_rfl

theorem hexToNumber_numberToHexUnpadded (v : Nat) :
    hexToNumber (numberToHexUnpadded v) = v := by
  unfold numberToHexUnpadded
  dsimp only
  split
  · rw [hexToNumber_eq_hexVal, data_append]
    show hexVal ('0' :: (numberToHexCore v).data) = v
    rw [hexVal_zero_cons]
    exact hexToNumber_numberToHexCore v
  · exact hexToNumber_numberToHexCore v

theorem data_leftPad (s : String) (m : Nat) :
    (leftPad s m).data = List.replicate (m - s.length) '0' ++ s.data := by
  unfold leftPad
  split
  · have : m - s.length = 0 := by omega
    simp [this]
  · rw [data_append]

theorem hexToNumber_leftPad (s : String) (m : Nat) :
    hexToNumber (leftPad s m) = hexToNumber s := by
  rw [hexToNumber_eq_hexVal, data_leftPad, hexVal_replicate_zero, hexToNumber_eq_hexVal]

theorem length_leftPad (s : String) (m : Nat) :
    (leftPad s m).length = max m s.length := by
  unfold leftPad
  split
  · omega
  · show (List.replicate (m - s.length) '0' ++ s.data).length = max m s.length
    rw [List.length_append, List.length_replicate]
    have hs : s.length = s.data.length := rfl
    omega

theorem length_numberToHexCore_le {v k : Nat} (hk : 0 < k) (h : v < 16 ^ k) :
    (numberToHexCore v).length ≤ k := by
  unfold numberToHexCore
  split
  · show ("0" : String).length ≤ k
    have h1 : ("0" : String).length = 1 := rfl
    omega
  · exact length_natToHexAux v v k h

theorem length_numberToHexUnpadded_le {v k : Nat} (hk : 0 < k) (h : v < 16 ^ (2 * k)) :
    (numberToHexUnpadded v).length ≤ 2 * k := by
  unfold numberToHexUnpadded
  dsimp only
  have hcore := length_numberToHexCore_le (by omega) h
  split
  · rw [length_append_str]
    have : ¬ ((numberToHexCore v).length = 2 * k) := by
      intro he
      omega
    simp only [String.length]
    show 1 + (numberToHexCore v).length ≤ 2 * k
    omega
  · exact hcore

theorem length_pad64 {v : Nat} (h : v < 16 ^ 64) :
    (leftPad (numberToHexUnpadded v) 64).length = 64 := by
  rw [length_leftPad]
  have : (numberToHexUnpadded v).length ≤ 2 * 32 :=
    length_numberToHexUnpadded_le (by omega) (by norm_num at h ⊢; exact h)
  omega

theorem hexToNumber_pad64 (v : Nat) :
    hexToNumber (leftPad (numberToHexUnpadded v) 64) = v := by
  rw [hexToNumber_leftPad, hexToNumber_numberToHexUnpadded]

theorem toLower_hexDigit (v : Nat) : (hexDigit v).toLower = hexDigit v := by
  by_cases h : v < 16
  · interval_cases v <;> decide
  · have hd : hexDigit v = '0' := by
      unfold hexDigit
      rw [List.getD_eq_default]
      have hlen : hexDigits.length = 16 := by decide
      omega
    rw [hd]
    decide

theorem strToLower_bytesToHex (bs : List Nat) :
    strToLower (bytesToHex bs) = bytesToHex bs := by
  show String.mk ((bs.flatMap byteToHexChars).map Char.toLower) = String.mk (bs.flatMap byteToHexChars)
  refine congrArg String.mk ?_
  induction bs with
  | nil => rfl
  | cons b rest ih =>
    simp only [List.flatMap_cons, List.map_append, ih, byteToHexChars, List.map_cons,
      List.map_nil, toLower_hexDigit]

/-! ## UTF-8 codec (Modelled from the spec: "hex/UTF-8 conversion utilities"
are external collaborators; `userId` is "the raw UTF-8 bytes of the identity
string".) -/

/-- Modelled from the spec: standard UTF-8 encoding of one Unicode code
point. -/
def utf8EncodeCodepoint (u : Nat) : List Nat :=
  if u < 128 then [u]
  else if u < 2048 then [192 + u / 64, 128 + u % 64]
  else if u < 65536 then [224 + u / 4096, 128 + u / 64 % 64, 128 + u % 64]
  else [240 + u / 262144, 128 + u / 4096 % 64, 128 + u / 64 % 64, 128 + u % 64]

/-- Modelled from the spec: the UTF-8 byte buffer of a string. -/
def utf8Bytes (s : String) : List Nat :=
  s.data.flatMap (fun c => utf8EncodeCodepoint c.toNat)

/-- Modelled from the spec: `utf8ToHex` of `utils.ts` — lowercase hex of the
UTF-8 bytes of a string. -/
def utf8ToHex (s : String) : String := bytesToHex (utf8Bytes s)

/-- Standard UTF-8 decoding, one code point per step; the first argument is
recursion fuel (one unit per decoded code point; `utf8Decode` supplies the
list length, which always suffices).  Malformed input yields U+FFFD, the
behaviour of JS `TextDecoder`.  65533 is the replacement character. -/
def utf8DecodeAux : Nat → List Nat → List Nat
  | 0, _ => []
  | _ + 1, [] => []
  | fuel + 1, b :: bs =>
    if b < 128 then b :: utf8DecodeAux fuel bs
    else if b < 192 then 65533 :: utf8DecodeAux fuel bs
    else if b < 224 then
      match bs with
      | b1 :: bs1 => ((b - 192) * 64 + (b1 - 128)) :: utf8DecodeAux fuel bs1
      | [] => [65533]
    else if b < 240 then
      match bs with
      | b1 :: b2 :: bs2 =>
        ((b - 224) * 4096 + (b1 - 128) * 64 + (b2 - 128)) :: utf8DecodeAux fuel bs2
      | _ => [65533]
    else
      match bs with
      | b1 :: b2 :: b3 :: bs3 =>
        ((b - 240) * 262144 + (b1 - 128) * 4096 + (b2 - 128) * 64 + (b3 - 128)) ::
          utf8DecodeAux fuel bs3
      | _ => [65533]

/-- Modelled from the spec: UTF-8 decoding of a byte buffer to code points. -/
def utf8Decode (bs : List Nat) : List Nat := utf8DecodeAux bs.length bs

/-- Modelled from the spec: `arrayToUtf8` of `utils.ts` — decode a byte buffer
as a UTF-8 string. -/
def arrayToUtf8 (bs : List Nat) : String := ⟨(utf8Decode bs).map Char.ofNat⟩

theorem utf8EncodeCodepoint_lt (u : Nat) (hu : u < 1114112) :
    ∀ b ∈ utf8EncodeCodepoint u, b < 256 := by
  unfold utf8EncodeCodepoint
  split
  · intro b hb
    simp only [List.mem_singleton] at hb
    omega
  split
  · intro b hb
    simp only [List.mem_cons, List.not_mem_nil, or_false] at hb
    rcases hb with rfl | rfl <;> omega
  split
  · intro b hb
    simp only [List.mem_cons, List.not_mem_nil, or_false] at hb
    rcases hb with rfl | rfl | rfl <;> omega
  · intro b hb
    simp only [List.mem_cons, List.not_mem_nil, or_false] at hb
    rcases hb with rfl | rfl | rfl | rfl <;> omega

theorem utf8EncodeCodepoint_ne_nil (u : Nat) : utf8EncodeCodepoint u ≠ [] := by
  unfold utf8EncodeCodepoint
  split
  · simp
  split
  · simp
  split
  · simp
  · simp

theorem length_le_flatMap_utf8 (cps : List Nat) :
    cps.length ≤ (cps.flatMap utf8EncodeCodepoint).length := by
  induction cps with
  | nil => simp
  | cons u rest ih =>
    simp only [List.flatMap_cons, List.length_append, List.length_cons]
    have : 1 ≤ (utf8EncodeCodepoint u).length := by
      rcases h : utf8EncodeCodepoint u with _ | _
      · exact absurd h (utf8EncodeCodepoint_ne_nil u)
      · simp
    omega

theorem utf8DecodeAux_step1 (f b : Nat) (bs : List Nat) (h : b < 128) :
    utf8DecodeAux (f + 1) (b :: bs) = b :: utf8DecodeAux f bs := by
  simp only [utf8DecodeAux, if_pos h]

theorem utf8DecodeAux_step2 (f b b1 : Nat) (bs : List Nat) (h1 : 192 ≤ b) (h2 : b < 224) :
    utf8DecodeAux (f + 1) (b :: b1 :: bs) =
      ((b - 192) * 64 + (b1 - 128)) :: utf8DecodeAux f bs := by
  simp only [utf8DecodeAux]
  rw [if_neg (by omega), if_neg (by omega), if_pos h2]

theorem utf8DecodeAux_step3 (f b b1 b2 : Nat) (bs : List Nat) (h1 : 224 ≤ b) (h2 : b < 240) :
    utf8DecodeAux (f + 1) (b :: b1 :: b2 :: bs) =
      ((b - 224) * 4096 + (b1 - 128) * 64 + (b2 - 128)) :: utf8DecodeAux f bs := by
  simp only [utf8DecodeAux]
  rw [if_neg (by omega), if_neg (by omega), if_neg (by omega), if_pos h2]

theorem utf8DecodeAux_step4 (f b b1 b2 b3 : Nat) (bs : List Nat) (h1 : 240 ≤ b) :
    utf8DecodeAux (f + 1) (b :: b1 :: b2 :: b3 :: bs) =
      ((b - 240) * 262144 + (b1 - 128) * 4096 + (b2 - 128) * 64 + (b3 - 128)) ::
        utf8DecodeAux f bs := by
  simp only [utf8DecodeAux]
  rw [if_neg (by omega), if_neg (by omega), if_neg (by omega), if_neg (by omega)]

theorem utf8DecodeAux_encode (cps : List Nat) (hv : ∀ u ∈ cps, u < 1114112) :
    ∀ fuel, cps.length ≤ fuel →
      utf8DecodeAux fuel (cps.flatMap utf8EncodeCodepoint) = cps := by
  induction cps with
  | nil =>
    intro fuel _
    cases fuel <;> rfl
  | cons u rest ih =>
    intro fuel hfuel
    have hu : u < 1114112 := hv u (by simp)
    have hrest : ∀ x ∈ rest, x < 1114112 := fun x hx => hv x (by simp [hx])
    obtain ⟨f, rfl⟩ : ∃ f, fuel = f + 1 := ⟨fuel - 1, by simp at hfuel; omega⟩
    have hf : rest.length ≤ f := by simp at hfuel; omega
    simp only [List.flatMap_cons]
    by_cases h1 : u < 128
    · rw [show utf8EncodeCodepoint u = [u] by unfold utf8EncodeCodepoint; rw [if_pos h1]]
      rw [List.cons_append, List.nil_append, utf8DecodeAux_step1 f u _ h1, ih hrest f hf]
    by_cases h2 : u < 2048
    · rw [show utf8EncodeCodepoint u = [192 + u / 64, 128 + u % 64] by
        unfold utf8EncodeCodepoint; rw [if_neg h1, if_pos h2]]
      rw [List.cons_append, List.cons_append, List.nil_append,
        utf8DecodeAux_step2 f (192 + u / 64) (128 + u % 64) (rest.flatMap utf8EncodeCodepoint)
          (by omega) (by omega), ih hrest f hf]
      congr 1
      omega
    by_cases h3 : u < 65536
    · rw [show utf8EncodeCodepoint u = [224 + u / 4096, 128 + u / 64 % 64, 128 + u % 64] by
        unfold utf8EncodeCodepoint; rw [if_neg h1, if_neg h2, if_pos h3]]
      rw [List.cons_append, List.cons_append, List.cons_append, List.nil_append,
        utf8DecodeAux_step3 f (224 + u / 4096) (128 + u / 64 % 64) (128 + u % 64)
          (rest.flatMap utf8EncodeCodepoint) (by omega) (by omega), ih hrest f hf]
      congr 1
      omega
    · rw [show utf8EncodeCodepoint u =
          [240 + u / 262144, 128 + u / 4096 % 64, 128 + u / 64 % 64, 128 + u % 64] by
        unfold utf8EncodeCodepoint; rw [if_neg h1, if_neg h2, if_neg h3]]
      rw [List.cons_append, List.cons_append, List.cons_append, List.cons_append,
        List.nil_append, utf8DecodeAux_step4 f (240 + u / 262144) (128 + u / 4096 % 64)
          (128 + u / 64 % 64) (128 + u % 64) (rest.flatMap utf8EncodeCodepoint) (by omega),
        ih hrest f hf]
      congr 1
      omega

theorem utf8Decode_encode (cps : List Nat) (hv : ∀ u ∈ cps, u < 1114112) :
    utf8Decode (cps.flatMap utf8EncodeCodepoint) = cps :=
  utf8DecodeAux_encode cps hv _ (length_le_flatMap_utf8 cps)

theorem char_toNat_lt (c : Char) : c.toNat < 1114112 := by
  rcases c.valid with h | h
  · exact Nat.lt_trans h (by norm_num)
  · exact h.2

theorem arrayToUtf8_utf8Bytes (s : String) : arrayToUtf8 (utf8Bytes s) = s := by
  unfold arrayToUtf8 utf8Bytes
  have h1 : s.data.flatMap (fun c => utf8EncodeCodepoint c.toNat) =
      (s.data.map Char.toNat).flatMap utf8EncodeCodepoint := by
    rw [List.flatMap_map]
  rw [h1, utf8Decode_encode _ (by
    intro u hu
    simp only [List.mem_map] at hu
    obtain ⟨c, _, rfl⟩ := hu
    exact char_toNat_lt c)]
  rw [List.map_map]
  have h2 : (Char.ofNat ∘ Char.toNat) = id := by
    funext c
    exact Char.ofNat_toNat c
  rw [h2, List.map_id]

theorem utf8Bytes_lt (s : String) : ∀ b ∈ utf8Bytes s, b < 256 := by
  intro b hb
  unfold utf8Bytes at hb
  rw [List.mem_flatMap] at hb
  obtain ⟨c, _, hc⟩ := hb
  exact utf8EncodeCodepoint_lt c.toNat (char_toNat_lt c) b hc

/-! ## The KDF XOR stream — `xorCipherStream` of the source -/

/-- Translated from the source: the four bytes `ctShift` written before each
hash call — the 32-bit big-endian encoding of the counter `ct`. -/
def ctBytes (ct : Nat) : List Nat :=
  [(ct >>> 24) &&& 255, (ct >>> 16) &&& 255, (ct >>> 8) &&& 255, ct &&& 255]

/-- Translated from the source: the loop of `xorCipherStream`.  The state is
the remaining message, the unconsumed part of the current block `t` (the
source's `t` from index `offset` on), and the counter `ct` that the next
`nextT()` call will hash.  When the block is exhausted a new block
`sm3(x2 || y2 || ct)` is hashed and `ct` is incremented, exactly as `nextT`
does.  (If the hash returned an empty block the source would loop forever;
that branch returns the message unchanged here and is unreachable for a hash
with 32-byte output.) -/
def xorStreamGo (sm3f : List Nat → List Nat) (x2 y2 : List Nat) :
    List Nat → List Nat → Nat → List Nat
  | [], _, _ => []
  | m :: ms, s :: ss, ct => (m ^^^ (s &&& 255)) :: xorStreamGo sm3f x2 y2 ms ss ct
  | m :: ms, [], ct =>
    match sm3f (x2 ++ y2 ++ ctBytes ct) with
    | [] => m :: ms
    | s :: ss => (m ^^^ (s &&& 255)) :: xorStreamGo sm3f x2 y2 ms ss (ct + 1)

/-- Translated from the source: `xorCipherStream(x2, y2, msg)` — XOR `msg`
in place with the SM3 counter-mode stream keyed by `x2 || y2`; the first
block is hashed with `ct = 1` before the loop. -/
def xorCipherStream (sm3f : List Nat → List Nat) (x2 y2 msg : List Nat) : List Nat :=
  xorStreamGo sm3f x2 y2 msg (sm3f (x2 ++ y2 ++ ctBytes 1)) 2

/-- Byte `i` of the KDF stream as the claim describes it: block number
`i / 32` is hashed with counter `1 + i / 32`, and byte `i % 32` of that block
is used. -/
def kdfByte (sm3f : List Nat → List Nat) (x2 y2 : List Nat) (i : Nat) : Nat :=
  (sm3f (x2 ++ y2 ++ ctBytes (1 + i / 32))).getD (i % 32) 0

theorem xor_cancel_right (a b : Nat) : (a ^^^ b) ^^^ b = a := by
  rw [Nat.xor_assoc, Nat.xor_self, Nat.xor_zero]

theorem length_xorStreamGo (sm3f : List Nat → List Nat) (x2 y2 : List Nat) :
    ∀ (msg t : List Nat) (ct : Nat), (xorStreamGo sm3f x2 y2 msg t ct).length = msg.length := by
  intro msg
  induction msg with
  | nil => intro t ct; rfl
  | cons m ms ih =>
    intro t ct
    cases t with
    | cons s ss => simp only [xorStreamGo, List.length_cons, ih]
    | nil =>
      rcases h : sm3f (x2 ++ y2 ++ ctBytes ct) with _ | ⟨s, ss⟩
      · simp only [xorStreamGo, h, List.length_cons]
      · simp only [xorStreamGo, h, List.length_cons, ih]

theorem xorStreamGo_involution (sm3f : List Nat → List Nat) (x2 y2 : List Nat) :
    ∀ (msg t : List Nat) (ct : Nat),
      xorStreamGo sm3f x2 y2 (xorStreamGo sm3f x2 y2 msg t ct) t ct = msg := by
  intro msg
  induction msg with
  | nil => intro t ct; cases t <;> rfl
  | cons m ms ih =>
    intro t ct
    cases t with
    | cons s ss =>
      simp only [xorStreamGo, ih, xor_cancel_right]
    | nil =>
      rcases h : sm3f (x2 ++ y2 ++ ctBytes ct) with _ | ⟨s, ss⟩
      · simp only [xorStreamGo, h]
      · simp only [xorStreamGo, h, ih, xor_cancel_right]

theorem xorCipherStream_involution (sm3f : List Nat → List Nat) (x2 y2 msg : List Nat) :
    xorCipherStream sm3f x2 y2 (xorCipherStream sm3f x2 y2 msg) = msg :=
  xorStreamGo_involution sm3f x2 y2 msg _ 2

theorem length_xorCipherStream (sm3f : List Nat → List Nat) (x2 y2 msg : List Nat) :
    (xorCipherStream sm3f x2 y2 msg).length = msg.length :=
  length_xorStreamGo sm3f x2 y2 msg _ 2

theorem xorStreamGo_lt (sm3f : List Nat → List Nat) (x2 y2 : List Nat) :
    ∀ (msg t : List Nat) (ct : Nat), (∀ b ∈ msg, b < 256) →
      ∀ b ∈ xorStreamGo sm3f x2 y2 msg t ct, b < 256 := by
  intro msg
  induction msg with
  | nil => intro t ct _ b hb; simp [xorStreamGo] at hb
  | cons m ms ih =>
    intro t ct hmsg b hb
    have hm : m < 256 := hmsg m (by simp)
    have hms : ∀ x ∈ ms, x < 256 := fun x hx => hmsg x (by simp [hx])
    have hxor : ∀ s : Nat, m ^^^ (s &&& 255) < 256 := by
      intro s
      have h1 : s &&& 255 < 256 := by
        have : s &&& 255 = s % 256 := by
          have h255 : (255 : Nat) = 2 ^ 8 - 1 := rfl
          rw [h255, Nat.and_pow_two_sub_one_eq_mod]
        omega
      have h2 : (256 : Nat) = 2 ^ 8 := rfl
      rw [h2] at hm h1 ⊢
      exact Nat.xor_lt_two_pow hm h1
    cases t with
    | cons s ss =>
      simp only [xorStreamGo, List.mem_cons] at hb
      rcases hb with rfl | hb
      · exact hxor s
      · exact ih ss ct hms b hb
    | nil =>
      rcases h : sm3f (x2 ++ y2 ++ ctBytes ct) with _ | ⟨s, ss⟩
      · simp only [xorStreamGo, h, List.mem_cons] at hb
        rcases hb with rfl | hb
        · exact hm
        · exact hms b hb
      · simp only [xorStreamGo, h, List.mem_cons] at hb
        rcases hb with rfl | hb
        · exact hxor s
        · exact ih ss (ct + 1) hms b hb

theorem xorStreamGo_spec (sm3f : List Nat → List Nat) (x2 y2 : List Nat)
    (h32 : ∀ bs, (sm3f bs).length = 32) :
    ∀ (msg : List Nat) (ct j : Nat), 1 ≤ ct → j ≤ 32 →
      xorStreamGo sm3f x2 y2 msg ((sm3f (x2 ++ y2 ++ ctBytes ct)).drop j) (ct + 1) =
        msg.mapIdx (fun i m => m ^^^ (kdfByte sm3f x2 y2 (32 * (ct - 1) + j + i) &&& 255)) := by
  intro msg
  induction msg with
  | nil => intro ct j _ _; cases ((sm3f (x2 ++ y2 ++ ctBytes ct)).drop j) <;> rfl
  | cons m ms ih =>
    intro ct j hct hj
    by_cases hj32 : j = 32
    · subst hj32
      have hdrop : (sm3f (x2 ++ y2 ++ ctBytes ct)).drop 32 = [] := by
        apply List.drop_eq_nil_of_le
        rw [h32]
      rw [hdrop]
      have hlen : (sm3f (x2 ++ y2 ++ ctBytes (ct + 1))).length = 32 := h32 _
      rcases hnew : sm3f (x2 ++ y2 ++ ctBytes (ct + 1)) with _ | ⟨s, ss⟩
      · rw [hnew] at hlen; simp at hlen
      · show xorStreamGo sm3f x2 y2 (m :: ms) [] (ct + 1) = _
        simp only [xorStreamGo, hnew]
        have hss : ss = (sm3f (x2 ++ y2 ++ ctBytes (ct + 1))).drop 1 := by rw [hnew]; rfl
        rw [hss, ih (ct + 1) 1 (by omega) (by omega), List.mapIdx_cons]
        congr 1
        · have hk : kdfByte sm3f x2 y2 (32 * (ct - 1) + 32 + 0) = s := by
            unfold kdfByte
            have h1 : 1 + (32 * (ct - 1) + 32 + 0) / 32 = ct + 1 := by omega
            have h2 : (32 * (ct - 1) + 32 + 0) % 32 = 0 := by omega
            rw [h1, h2, hnew]
            rfl
          rw [hk]
        · have hfg : (fun (i m : Nat) =>
              m ^^^ (kdfByte sm3f x2 y2 (32 * (ct + 1 - 1) + 1 + i) &&& 255)) =
              (fun (i m : Nat) =>
              m ^^^ (kdfByte sm3f x2 y2 (32 * (ct - 1) + 32 + (i + 1)) &&& 255)) := by
            funext i m
            have hidx : 32 * (ct + 1 - 1) + 1 + i = 32 * (ct - 1) + 32 + (i + 1) := by omega
            rw [hidx]
          rw [hfg]
    · have hjlt : j < 32 := by omega
      have hbl : j < (sm3f (x2 ++ y2 ++ ctBytes ct)).length := by rw [h32]; omega
      rw [List.drop_eq_getElem_cons hbl]
      simp only [xorStreamGo]
      rw [ih ct (j + 1) hct (by omega), List.mapIdx_cons]
      congr 1
      · have hk : kdfByte sm3f x2 y2 (32 * (ct - 1) + j + 0) =
            (sm3f (x2 ++ y2 ++ ctBytes ct))[j] := by
          unfold kdfByte
          have h1 : 1 + (32 * (ct - 1) + j + 0) / 32 = ct := by omega
          have h2 : (32 * (ct - 1) + j + 0) % 32 = j := by omega
          rw [h1, h2]
          exact List.getD_eq_getElem _ 0 hbl
        rw [hk]
      · have hfg : (fun (i m : Nat) =>
            m ^^^ (kdfByte sm3f x2 y2 (32 * (ct - 1) + (j + 1) + i) &&& 255)) =
            (fun (i m : Nat) =>
            m ^^^ (kdfByte sm3f x2 y2 (32 * (ct - 1) + j + (i + 1)) &&& 255)) := by
          funext i m
          have hidx : 32 * (ct - 1) + (j + 1) + i = 32 * (ct - 1) + j + (i + 1) := by omega
          rw [hidx]
        rw [hfg]

theorem xorCipherStream_spec (sm3f : List Nat → List Nat) (x2 y2 : List Nat)
    (h32 : ∀ bs, (sm3f bs).length = 32) (msg : List Nat) :
    xorCipherStream sm3f x2 y2 msg =
      msg.mapIdx (fun i m => m ^^^ (kdfByte sm3f x2 y2 i &&& 255)) := by
  unfold xorCipherStream
  have h0 : sm3f (x2 ++ y2 ++ ctBytes 1) = (sm3f (x2 ++ y2 ++ ctBytes 1)).drop 0 := rfl
  rw [h0, xorStreamGo_spec sm3f x2 y2 h32 msg 1 0 (by omega) (by omega)]
  have hfg : (fun (i m : Nat) => m ^^^ (kdfByte sm3f x2 y2 (32 * (1 - 1) + 0 + i) &&& 255)) =
      (fun (i m : Nat) => m ^^^ (kdfByte sm3f x2 y2 i &&& 255)) := by
    funext i m
    have hidx : 32 * (1 - 1) + 0 + i = i := by omega
    rw [hidx]
  rw [hfg]


/-! ## The curve/field collaborator -/

/-- Modelled from the spec: the collaborators consumed by the SM2 module —
the SM3 hash ("consumed as a byte-oriented compression function") and the
curve/field arithmetic ("consumed as a group with known generator and
order"): scalar multiplication, point addition, affine coordinate extraction,
decoding of an affine pair to a point, modular inverse over the order `n`
(noble's `Field(n).inv`), and the curve coefficients `a`, `b` used by the Z
hash.  `Pt` is the point type. -/
structure SM2Ctx (Pt : Type) where
  sm3 : List Nat → List Nat
  n : Nat
  G : Pt
  padd : Pt → Pt → Pt
  smul : Nat → Pt → Pt
  xc : Pt → Nat
  yc : Pt → Nat
  decodeAffine : Nat → Nat → Option Pt
  inv : Nat → Nat
  ca : Nat
  cb : Nat

variable {Pt : Type}

/-- Modelled from the spec: noble's `point.multiply(scalar)` — scalar
multiplication which rejects any scalar outside `[1, n-1]` by throwing
("invalid scalar: out of range"). -/
def SM2Ctx.multiply (C : SM2Ctx Pt) (P : Pt) (k : Nat) : Except String Pt :=
  if 1 ≤ k ∧ k < C.n then .ok (C.smul k P) else .error "invalid scalar: out of range"

/-- Modelled from the spec: noble's uncompressed point hex — `04 || X || Y`
with both coordinates zero-padded to 32 bytes (used by `generateKeyPairHex`
and `getPublicKey(…, false)`). -/
def SM2Ctx.pubKeyHexOf (C : SM2Ctx Pt) (P : Pt) : String :=
  "04" ++ leftPad (numberToHexUnpadded (C.xc P)) 64 ++
    leftPad (numberToHexUnpadded (C.yc P)) 64

/-- Modelled from the spec: noble's `ProjectivePoint.fromHex` on the
uncompressed form — parse `04 || X || Y` (130 hex chars) and decode the
affine pair, throwing on any other shape or on an invalid point. -/
def SM2Ctx.fromHexPoint (C : SM2Ctx Pt) (s : String) : Except String Pt :=
  if s.data.length = 130 ∧ s.data.take 2 = ['0', '4'] then
    match C.decodeAffine (hexToNumber ⟨(s.data.drop 2).take 64⟩)
        (hexToNumber ⟨s.data.drop 66⟩) with
    | some P => .ok P
    | none => .error "invalid point"
  else .error "invalid point encoding"

/-- Laws the modelled collaborators satisfy, from the spec: SM3 outputs 32
bytes; `n` is the prime order of the cyclic group generated by `G` (all
256-bit); affine coordinates are 256-bit; decoding inverts coordinate
extraction for group points; `inv` is the modular inverse over `n`. -/
structure SM2Ctx.Lawful (C : SM2Ctx Pt) : Prop where
  sm3_len : ∀ bs, (C.sm3 bs).length = 32
  sm3_lt : ∀ bs, ∀ b ∈ C.sm3 bs, b < 256
  n_prime : Nat.Prime C.n
  n_le : C.n ≤ 2 ^ 256
  xc_lt : ∀ P : Pt, C.xc P < 2 ^ 256
  yc_lt : ∀ P : Pt, C.yc P < 2 ^ 256
  smul_smul : ∀ a b : Nat, C.smul a (C.smul b C.G) = C.smul (a * b) C.G
  add_smul : ∀ a b : Nat, C.padd (C.smul a C.G) (C.smul b C.G) = C.smul (a + b) C.G
  smul_mod : ∀ a : Nat, C.smul (a % C.n) C.G = C.smul a C.G
  decode_xy : ∀ P : Pt, C.decodeAffine (C.xc P) (C.yc P) = some P
  inv_spec : ∀ a : Nat, Nat.gcd (a % C.n) C.n = 1 → (C.inv a * a) % C.n = 1
  ca_lt : C.ca < 2 ^ 256
  cb_lt : C.cb < 2 ^ 256

theorem pow16_64 : (16 : Nat) ^ 64 = 2 ^ 256 := by norm_num

theorem data_pubKeyHexOf (C : SM2Ctx Pt) (P : Pt) :
    (C.pubKeyHexOf P).data =
      '0' :: '4' :: ((leftPad (numberToHexUnpadded (C.xc P)) 64).data ++
        (leftPad (numberToHexUnpadded (C.yc P)) 64).data) := by
  unfold SM2Ctx.pubKeyHexOf
  rw [data_append, data_append]
  rfl

theorem fromHexPoint_pubKeyHexOf (C : SM2Ctx Pt) (hL : C.Lawful) (P : Pt) :
    C.fromHexPoint (C.pubKeyHexOf P) = .ok P := by
  have hxlt : C.xc P < 16 ^ 64 := by rw [pow16_64]; exact hL.xc_lt P
  have hylt : C.yc P < 16 ^ 64 := by rw [pow16_64]; exact hL.yc_lt P
  unfold SM2Ctx.fromHexPoint
  rw [data_pubKeyHexOf]
  set px := leftPad (numberToHexUnpadded (C.xc P)) 64 with hpxdef
  set py := leftPad (numberToHexUnpadded (C.yc P)) 64 with hpydef
  have hpx : px.data.length = 64 := length_pad64 hxlt
  have hpy : py.data.length = 64 := length_pad64 hylt
  have hcond : ('0' :: '4' :: (px.data ++ py.data)).length = 130 ∧
      ('0' :: '4' :: (px.data ++ py.data)).take 2 = ['0', '4'] := by
    constructor
    · simp only [List.length_cons, List.length_append, hpx, hpy]
    · rfl
  rw [if_pos hcond]
  have hdrop2 : ('0' :: '4' :: (px.data ++ py.data)).drop 2 = px.data ++ py.data := rfl
  have hdrop66 : ('0' :: '4' :: (px.data ++ py.data)).drop 66 =
      (px.data ++ py.data).drop 64 := rfl
  rw [hdrop2, hdrop66]
  have htake : (px.data ++ py.data).take 64 = px.data := by
    rw [← hpx]; exact List.take_left px.data py.data
  have hdropl : (px.data ++ py.data).drop 64 = py.data := by
    rw [← hpx]; exact List.drop_left px.data py.data
  rw [htake, hdropl]
  have h1 : hexToNumber ⟨px.data⟩ = C.xc P := hexToNumber_pad64 (C.xc P)
  have h2 : hexToNumber ⟨py.data⟩ = C.yc P := hexToNumber_pad64 (C.yc P)
  rw [h1, h2, hL.decode_xy P]

/-! ## ASN.1 codec collaborator -/

theorem take_len_append {α : Type} (a b : List α) (k : Nat) (h : a.length = k) :
    (a ++ b).take k = a := by
  subst h; exact List.take_left a b

theorem drop_len_append {α : Type} (a b : List α) (k : Nat) (h : a.length = k) :
    (a ++ b).drop k = b := by
  subst h; exact List.drop_left a b

/-- Result of `decodeEnc`: the four fields of the ASN.1 ciphertext.  The
third encoded field arrives in `hash` and the fourth in `cipher`, matching
the standard `C1 C3 C2` layout the encoder writes in default mode. -/
structure EncParts where
  x : Nat
  y : Nat
  hash : String
  cipher : String

/-- Modelled from the spec: `encodeEnc(x, y, third, fourth)` — the ASN.1
SEQUENCE of the two 256-bit coordinates and the two variable-length fields,
"consumed as a byte serialization helper".  Modelled as an injective
serialization (`30` tag, fixed-width coordinates, 32-bit length prefix for
the third field) with `decodeEnc` as its inverse. -/
def encodeEnc (x y : Nat) (third fourth : String) : String :=
  "30" ++ leftPad (numberToHexUnpadded x) 64 ++ leftPad (numberToHexUnpadded y) 64 ++
    leftPad (numberToHexUnpadded third.length) 8 ++ third ++ fourth

/-- Modelled from the spec: `decodeEnc` — parse the serialized four-field
ciphertext back into `{x, y, hash, cipher}`; malformed input fails. -/
def decodeEnc (s : String) : Option EncParts :=
  if 138 ≤ s.data.length ∧ s.data.take 2 = ['3', '0'] then
    some ⟨hexToNumber ⟨(s.data.drop 2).take 64⟩,
          hexToNumber ⟨(s.data.drop 66).take 64⟩,
          ⟨(s.data.drop 138).take (hexToNumber ⟨(s.data.drop 130).take 8⟩)⟩,
          ⟨s.data.drop (138 + hexToNumber ⟨(s.data.drop 130).take 8⟩)⟩⟩
  else none

/-- Modelled from the spec: `encodeDer(r, s)` — DER SEQUENCE of the two
signature integers, modelled as an injective fixed-width serialization with
`decodeDer` as its inverse. -/
def encodeDer (r s : Nat) : String :=
  "3044" ++ leftPad (numberToHexUnpadded r) 64 ++ leftPad (numberToHexUnpadded s) 64

/-- Modelled from the spec: `decodeDer` — parse a serialized signature back
into `(r, s)`; malformed input fails. -/
def decodeDer (sig : String) : Option (Nat × Nat) :=
  if sig.data.length = 132 ∧ sig.data.take 4 = ['3', '0', '4', '4'] then
    some (hexToNumber ⟨(sig.data.drop 4).take 64⟩, hexToNumber ⟨sig.data.drop 68⟩)
  else none

theorem length_pad64_of_lt {v : Nat} (h : v < 2 ^ 256) :
    (leftPad (numberToHexUnpadded v) 64).data.length = 64 :=
  length_pad64 (by rw [pow16_64]; exact h)

theorem decodeDer_encodeDer {r s : Nat} (hr : r < 2 ^ 256) (hs : s < 2 ^ 256) :
    decodeDer (encodeDer r s) = some (r, s) := by
  have hdata : (encodeDer r s).data =
      '3' :: '0' :: '4' :: '4' :: ((leftPad (numberToHexUnpadded r) 64).data ++
        (leftPad (numberToHexUnpadded s) 64).data) := by
    unfold encodeDer
    rw [data_append, data_append]
    rfl
  have hrl : (leftPad (numberToHexUnpadded r) 64).data.length = 64 := length_pad64_of_lt hr
  have hsl : (leftPad (numberToHexUnpadded s) 64).data.length = 64 := length_pad64_of_lt hs
  unfold decodeDer
  rw [hdata]
  set pr := (leftPad (numberToHexUnpadded r) 64).data
  set ps := (leftPad (numberToHexUnpadded s) 64).data
  rw [if_pos ?hcond]
  case hcond =>
    constructor
    · simp only [List.length_cons, List.length_append, hrl, hsl]
    · rfl
  have hd4 : ('3' :: '0' :: '4' :: '4' :: (pr ++ ps)).drop 4 = pr ++ ps := rfl
  have hd68 : ('3' :: '0' :: '4' :: '4' :: (pr ++ ps)).drop 68 = (pr ++ ps).drop 64 := rfl
  rw [hd4, hd68, take_len_append pr ps 64 hrl, drop_len_append pr ps 64 hrl]
  have h1 : hexToNumber ⟨pr⟩ = r := hexToNumber_pad64 r
  have h2 : hexToNumber ⟨ps⟩ = s := hexToNumber_pad64 s
  rw [h1, h2]

theorem decodeEnc_encodeEnc {x y : Nat} (hx : x < 2 ^ 256) (hy : y < 2 ^ 256)
    (third fourth : String) (hlen : third.length < 16 ^ 8) :
    decodeEnc (encodeEnc x y third fourth) = some ⟨x, y, third, fourth⟩ := by
  have hxl : (leftPad (numberToHexUnpadded x) 64).data.length = 64 := length_pad64_of_lt hx
  have hyl : (leftPad (numberToHexUnpadded y) 64).data.length = 64 := length_pad64_of_lt hy
  have hll : (leftPad (numberToHexUnpadded third.length) 8).data.length = 8 := by
    show (leftPad (numberToHexUnpadded third.length) 8).length = 8
    rw [length_leftPad]
    have : (numberToHexUnpadded third.length).length ≤ 2 * 4 :=
      length_numberToHexUnpadded_le (by omega) (by norm_num at hlen ⊢; exact hlen)
    omega
  have hdata : (encodeEnc x y third fourth).data =
      '3' :: '0' :: ((leftPad (numberToHexUnpadded x) 64).data ++
        ((leftPad (numberToHexUnpadded y) 64).data ++
          ((leftPad (numberToHexUnpadded third.length) 8).data ++
            (third.data ++ fourth.data)))) := by
    unfold encodeEnc
    rw [data_append, data_append, data_append, data_append, data_append]
    simp only [List.append_assoc]
    rfl
  unfold decodeEnc
  rw [hdata]
  set px := (leftPad (numberToHexUnpadded x) 64).data
  set py := (leftPad (numberToHexUnpadded y) 64).data
  set pl := (leftPad (numberToHexUnpadded third.length) 8).data
  rw [if_pos ?hcond]
  case hcond =>
    constructor
    · simp only [List.length_cons, List.length_append, hxl, hyl, hll]
      omega
    · rfl
  have hd2 : ('3' :: '0' :: (px ++ (py ++ (pl ++ (third.data ++ fourth.data))))).drop 2 =
      px ++ (py ++ (pl ++ (third.data ++ fourth.data))) := rfl
  have hd66 : ('3' :: '0' :: (px ++ (py ++ (pl ++ (third.data ++ fourth.data))))).drop 66 =
      (px ++ (py ++ (pl ++ (third.data ++ fourth.data)))).drop 64 := rfl
  have hd130 : ('3' :: '0' :: (px ++ (py ++ (pl ++ (third.data ++ fourth.data))))).drop 130 =
      ((px ++ (py ++ (pl ++ (third.data ++ fourth.data)))).drop 64).drop 64 := by
    rw [List.drop_drop]
    exact rfl
  have hd138 : ('3' :: '0' :: (px ++ (py ++ (pl ++ (third.data ++ fourth.data))))).drop 138 =
      (((px ++ (py ++ (pl ++ (third.data ++ fourth.data)))).drop 64).drop 64).drop 8 := by
    rw [List.drop_drop, List.drop_drop]
    exact rfl
  have hstep1 : (px ++ (py ++ (pl ++ (third.data ++ fourth.data)))).drop 64 =
      py ++ (pl ++ (third.data ++ fourth.data)) := drop_len_append _ _ 64 hxl
  have hstep2 : (py ++ (pl ++ (third.data ++ fourth.data))).drop 64 =
      pl ++ (third.data ++ fourth.data) := drop_len_append _ _ 64 hyl
  have hstep3 : (pl ++ (third.data ++ fourth.data)).drop 8 =
      third.data ++ fourth.data := drop_len_append _ _ 8 hll
  rw [hd2, hd66, hd130, hd138, hstep1, hstep2, hstep3]
  rw [take_len_append px _ 64 hxl, take_len_append py _ 64 hyl,
    take_len_append pl _ 8 hll]
  have h1 : hexToNumber ⟨px⟩ = x := hexToNumber_pad64 x
  have h2 : hexToNumber ⟨py⟩ = y := hexToNumber_pad64 y
  have h3 : hexToNumber ⟨pl⟩ = third.length := by
    show hexToNumber (leftPad (numberToHexUnpadded third.length) 8) = third.length
    rw [hexToNumber_leftPad, hexToNumber_numberToHexUnpadded]
  rw [h1, h2, h3]
  have h138 : ('3' :: '0' :: (px ++ (py ++ (pl ++ (third.data ++ fourth.data))))).drop 138 =
      third.data ++ fourth.data := by
    rw [hd138, hstep1, hstep2, hstep3]
  have hdcip : ('3' :: '0' :: (px ++ (py ++ (pl ++ (third.data ++ fourth.data))))).drop
      (138 + third.length) = fourth.data := by
    have e1 : ('3' :: '0' :: (px ++ (py ++ (pl ++ (third.data ++ fourth.data))))).drop
        (138 + third.length) =
        (('3' :: '0' :: (px ++ (py ++ (pl ++ (third.data ++ fourth.data))))).drop 138).drop
          third.length := by
      rw [List.drop_drop]
    rw [e1, h138]
    exact drop_len_append third.data fourth.data third.length rfl
  rw [take_len_append third.data fourth.data third.length rfl, hdcip]

/-! ## The SM2 module — translated from the source (src/sm2/index.ts) -/

/-- Translated from the source: the default `userId` parameter value. -/
def defaultUserId : String := "1234567812345678"

/-- Hex form of a message: `typeof msg === 'string' ? utf8ToHex(msg) :
arrayToHex(Array.from(msg))`, the normalization both `doSignature` and
`doVerifySignature` perform.  A byte-buffer message is `Sum.inl`, a string
message `Sum.inr`. -/
def msgHex (msg : List Nat ⊕ String) : String :=
  match msg with
  | .inr s => utf8ToHex s
  | .inl bs => arrayToHex bs

/-- Translated from the source: `getZ(publicKey, userId)`.  The `userId`
option models the JS default parameter (`none` means the default identity).
The decode of a non-128-char public key can throw, hence `Except`. -/
def getZ (C : SM2Ctx Pt) (publicKey : String) (userId : Option String) :
    Except String (List Nat) :=
  let uid := userId.getD defaultUserId
  let userIdHex := utf8ToHex uid
  let a := leftPad (numberToHexUnpadded C.ca) 64
  let b := leftPad (numberToHexUnpadded C.cb) 64
  let gx := leftPad (numberToHexUnpadded (C.xc C.G)) 64
  let gy := leftPad (numberToHexUnpadded (C.yc C.G)) 64
  let pxy : Except String (String × String) :=
    if publicKey.length = 128 then
      .ok (⟨publicKey.data.take 64⟩, ⟨(publicKey.data.take 128).drop 64⟩)
    else
      match C.fromHexPoint publicKey with
      | .ok point => .ok (leftPad (numberToHexUnpadded (C.xc point)) 64,
          leftPad (numberToHexUnpadded (C.yc point)) 64)
      | .error e => .error e
  match pxy with
  | .error e => .error e
  | .ok (px, py) =>
    let data := hexToArray (userIdHex ++ a ++ b ++ gx ++ gy ++ px ++ py)
    let entl := userIdHex.length * 4
    .ok (C.sm3 ([(entl >>> 8) &&& 255, entl &&& 255] ++ data))

/-- Translated from the source: `getHash(hashHex, publicKey, userId)` — the
pre-hash `e = SM3(Z || M)`; the message arrives either as a hex string
(`Sum.inl`) or a byte buffer (`Sum.inr`). -/
def getHash (C : SM2Ctx Pt) (hashHex : String ⊕ List Nat) (publicKey : String)
    (userId : Option String) : Except String String :=
  match getZ C publicKey userId with
  | .error e => .error e
  | .ok z =>
    .ok (bytesToHex (C.sm3 (z ++ (match hashHex with
      | .inl h => hexToArray h
      | .inr bs => bs))))

/-- Translated from the source: `getPublicKeyFromPrivateKey(privateKey)` —
`leftPad(bytesToHex(sm2Curve.getPublicKey(privateKey, false)), 64)`, where
noble's `getPublicKey(…, false)` yields the uncompressed `04 || X || Y`
encoding of `d·G` (modelled for in-range private keys, the only ones the
claims quantify over; noble throws on out-of-range keys). -/
def getPublicKeyFromPrivateKey (C : SM2Ctx Pt) (privateKey : String) : String :=
  leftPad (C.pubKeyHexOf (C.smul (hexToNumber privateKey) C.G)) 64

/-- Translated from the source: the keypair hex pair. -/
structure KeyPairHex where
  privateKey : String
  publicKey : String

/-- Modelled from the spec: `generateKeyPairHex` of `utils.ts` — draw a fresh
scalar from the RNG (determinized into the explicit parameter `k`) and return
the 64-hex private key with the uncompressed `04 || X || Y` public key. -/
def generateKeyPairHex (C : SM2Ctx Pt) (k : Nat) : KeyPairHex :=
  ⟨leftPad (numberToHexUnpadded k) 64, C.pubKeyHexOf (C.smul k C.G)⟩

/-- Translated from the source: the `typeof publicKey === 'string' ?
sm2Curve.ProjectivePoint.fromHex(publicKey) : publicKey` normalization. -/
def resolvePublicKey (C : SM2Ctx Pt) (pk : String ⊕ Pt) : Except String Pt :=
  match pk with
  | .inl s => C.fromHexPoint s
  | .inr P => .ok P

/-- Translated from the source: the plaintext normalization at the top of
`doEncrypt` — `typeof msg === 'string' ? hexToArray(utf8ToHex(msg)) :
Uint8Array.from(msg)`. -/
def msgBytes (msg : List Nat ⊕ String) : List Nat :=
  match msg with
  | .inr s => hexToArray (utf8ToHex s)
  | .inl bs => bs

/-- Translated from the source: `doEncrypt(msg, publicKey, cipherMode,
options)`.  `kDraw` determinizes the scalar drawn by `generateKeyPairHex`. -/
def doEncrypt (C : SM2Ctx Pt) (msg : List Nat ⊕ String) (publicKey : String ⊕ Pt)
    (cipherMode : Nat) (asn1 : Bool) (kDraw : Nat) : Except String String :=
  let msgArr := msgBytes msg
  match resolvePublicKey C publicKey with
  | .error e => .error e
  | .ok publicKeyPoint =>
    let keypair := generateKeyPairHex C kDraw
    let k := hexToNumber keypair.privateKey
    let c1 := if 128 < keypair.publicKey.length
      then (⟨keypair.publicKey.data.drop (keypair.publicKey.length - 128)⟩ : String)
      else keypair.publicKey
    match C.multiply publicKeyPoint k with
    | .error e => .error e
    | .ok p =>
      let x2 := hexToArray (leftPad (numberToHexUnpadded (C.xc p)) 64)
      let y2 := hexToArray (leftPad (numberToHexUnpadded (C.yc p)) 64)
      let c3 := bytesToHex (C.sm3 (x2 ++ msgArr ++ y2))
      let c2 := bytesToHex (xorCipherStream C.sm3 x2 y2 msgArr)
      if asn1 then
        match C.fromHexPoint keypair.publicKey with
        | .error e => .error e
        | .ok point =>
          if cipherMode = 0 then .ok (encodeEnc (C.xc point) (C.yc point) c2 c3)
          else .ok (encodeEnc (C.xc point) (C.yc point) c3 c2)
      else
        if cipherMode = 0 then .ok (c1 ++ c2 ++ c3) else .ok (c1 ++ c3 ++ c2)

/-- Result type of `doDecrypt` — a byte buffer under `output: 'array'`, a
string under `output: 'string'`. -/
inductive DecOut where
  | arr (bs : List Nat)
  | str (s : String)
deriving DecidableEq

/-- Translated from the source: the framing-parse prefix of `doDecrypt` —
recover `(C1, C2, C3)` from either the ASN.1 form (`decodeEnc`, swap on mode
`C1C2C3`) or the hex form (`C1` from the first 128 chars re-prefixed with
`04`, then `C3`/`C2` split per mode). -/
def decryptParse (C : SM2Ctx Pt) (encryptData : String) (cipherMode : Nat) (asn1 : Bool) :
    Except String (Pt × String × String) :=
  if asn1 then
    match decodeEnc encryptData with
    | none => .error "decodeEnc: malformed"
    | some parts =>
      match C.decodeAffine parts.x parts.y with
      | none => .error "invalid affine point"
      | some c1 =>
        if cipherMode = 0 then .ok (c1, parts.hash, parts.cipher)
        else .ok (c1, parts.cipher, parts.hash)
  else
    match C.fromHexPoint ("04" ++ (⟨encryptData.data.take 128⟩ : String)) with
    | .error e => .error e
    | .ok c1 =>
      if cipherMode = 0 then
        .ok (c1, (⟨(encryptData.data.take (encryptData.data.length - 64)).drop 128⟩ : String),
          (⟨encryptData.data.drop (encryptData.data.length - 64)⟩ : String))
      else
        .ok (c1, (⟨encryptData.data.drop 192⟩ : String),
          (⟨(encryptData.data.take 192).drop 128⟩ : String))

/-- Translated from the source: the tail of `doDecrypt` after framing —
`(x2, y2) = d·C1`, XOR stream, recompute `C3'`, compare with the received
`C3` lowercased, and either return the plaintext (bytes or UTF-8) or an
empty result. -/
def decryptCore (C : SM2Ctx Pt) (c1 : Pt) (c2 c3 : String) (privateKeyInteger : Nat)
    (outputArray : Bool) : Except String DecOut :=
  let msgA := hexToArray c2
  match C.multiply c1 privateKeyInteger with
  | .error e => .error e
  | .ok p =>
    let x2 := hexToArray (leftPad (numberToHexUnpadded (C.xc p)) 64)
    let y2 := hexToArray (leftPad (numberToHexUnpadded (C.yc p)) 64)
    let plain := xorCipherStream C.sm3 x2 y2 msgA
    let checkC3 := arrayToHex (C.sm3 (x2 ++ plain ++ y2))
    if checkC3 = strToLower c3 then
      .ok (if outputArray then .arr plain else .str (arrayToUtf8 plain))
    else
      .ok (if outputArray then .arr [] else .str "")

/-- Translated from the source: `doDecrypt(encryptData, privateKey,
cipherMode, { output, asn1 })`. -/
def doDecrypt (C : SM2Ctx Pt) (encryptData privateKey : String) (cipherMode : Nat)
    (outputArray asn1 : Bool) : Except String DecOut :=
  match decryptParse C encryptData cipherMode asn1 with
  | .error e => .error e
  | .ok (c1, c2, c3) => decryptCore C c1 c2 c3 (hexToNumber privateKey) outputArray

/-- Translated from the source: an entry of the signer's point pool —
`{ k, x1 }`. -/
structure SigPoint where
  k : Nat
  x1 : Nat

/-- Modelled from the spec: noble's non-negative `mod` — the Euclidean
remainder of an integer by the group order. -/
def nobleMod (a : Int) (m : Nat) : Nat := (a % (m : Int)).toNat

/-- Translated from the source: the `do … while` generation loop of
`doSignature`.  The list argument is the stream of ephemeral points the loop
consumes (each `pointPool.pop()` or `getPoint()` result, in consumption
order); an exhausted stream yields `none` (the source would keep drawing from
the RNG).  Returns `(r, s, k)` with `k` the ephemeral scalar that produced
the accepted candidate. -/
def signLoop (C : SM2Ctx Pt) (e dA : Nat) : List SigPoint → Option (Nat × Nat × Nat)
  | [] => none
  | pt :: rest =>
    let k := pt.k
    let r := (e + pt.x1) % C.n
    if r = 0 ∨ r + k = C.n then signLoop C e dA rest
    else
      let s := nobleMod ((C.inv (dA + 1) : Int) * ((k : Int) - (r : Int) * (dA : Int))) C.n
      if s = 0 then signLoop C e dA rest
      else some (r, s, k)

/-- Translated from the source: the `hashHex` computation at the top of
`doSignature` — optional Z pre-hash with the public key defaulting to the one
derived from the private key. -/
def signHashHex (C : SM2Ctx Pt) (msg : List Nat ⊕ String) (privateKey : String)
    (hash : Bool) (publicKey : Option String) (userId : Option String) :
    Except String String :=
  if hash then
    getHash C (.inl (msgHex msg))
      (publicKey.getD (getPublicKeyFromPrivateKey C privateKey)) userId
  else .ok (msgHex msg)

/-- Translated from the source: `doSignature(msg, privateKey, options)`.
`points` is the determinized stream of ephemeral points (pool entries and
fresh `getPoint()` draws, in consumption order). -/
def doSignature (C : SM2Ctx Pt) (msg : List Nat ⊕ String) (privateKey : String)
    (points : List SigPoint) (der hash : Bool) (publicKey : Option String)
    (userId : Option String) : Except String String :=
  match signHashHex C msg privateKey hash publicKey userId with
  | .error e => .error e
  | .ok hashHex =>
    let dA := hexToNumber privateKey
    let e := hexToNumber hashHex
    match signLoop C e dA points with
    | none => .error "point stream exhausted"
    | some (r, s, _) =>
      .ok (if der then encodeDer r s
        else leftPad (numberToHexUnpadded r) 64 ++ leftPad (numberToHexUnpadded s) 64)

/-- Translated from the source: the tail of `doVerifySignature` once `(r, s)`
are recovered — decode the public key, `t = (r+s) mod n` with the `t = 0`
early `false`, the two scalar multiplications (noble throws on scalars
outside `[1, n-1]`), and the final `r == (e + x1') mod n` boolean. -/
def verifyRS (C : SM2Ctx Pt) (hashHex : String) (r s : Nat) (publicKey : String ⊕ Pt) :
    Except String Bool :=
  match resolvePublicKey C publicKey with
  | .error e => .error e
  | .ok PA =>
    let e := hexToNumber hashHex
    let t := (r + s) % C.n
    if t = 0 then .ok false
    else
      match C.multiply C.G s with
      | .error err => .error err
      | .ok sG =>
        match C.multiply PA t with
        | .error err => .error err
        | .ok tPA =>
          let x1y1 := C.padd sG tPA
          let R := (e + C.xc x1y1) % C.n
          .ok (decide (r = R))

/-- Translated from the source: the verifier's message argument to `getHash`
— `typeof msg === 'string' ? utf8ToHex(msg) : msg`. -/
def verifyMsgData (msg : List Nat ⊕ String) : String ⊕ List Nat :=
  match msg with
  | .inr s => .inl (utf8ToHex s)
  | .inl bs => .inr bs

/-- Translated from the source: `typeof publicKey === 'string' ? publicKey :
publicKey.toHex(false)`. -/
def pubKeyHexInput (C : SM2Ctx Pt) (publicKey : String ⊕ Pt) : String :=
  match publicKey with
  | .inl s => s
  | .inr P => C.pubKeyHexOf P

/-- Translated from the source: `doVerifySignature(msg, signHex, publicKey,
options)`. -/
def doVerifySignature (C : SM2Ctx Pt) (msg : List Nat ⊕ String) (signHex : String)
    (publicKey : String ⊕ Pt) (der hash : Bool) (userId : Option String) :
    Except String Bool :=
  let publicKeyHex := pubKeyHexInput C publicKey
  match (if hash then
      getHash C (verifyMsgData msg) publicKeyHex userId
    else .ok (msgHex msg)) with
  | .error e => .error e
  | .ok hashHex =>
    match (if der then
        match decodeDer signHex with
        | some rs => Except.ok rs
        | none => Except.error "decodeDer: malformed"
      else Except.ok (hexToNumber (⟨signHex.data.take 64⟩ : String),
        hexToNumber (⟨signHex.data.drop 64⟩ : String))) with
    | .error e => .error e
    | .ok (r, s) =>
      match resolvePublicKey C publicKey with
      | .error e => .error e
      | .ok PA =>
        let e := hexToNumber hashHex
        let t := (r + s) % C.n
        if t = 0 then .ok false
        else
          match C.multiply C.G s with
          | .error err => .error err
          | .ok sG =>
            match C.multiply PA t with
            | .error err => .error err
            | .ok tPA =>
              let x1y1 := C.padd sG tPA
              let R := (e + C.xc x1y1) % C.n
              .ok (decide (r = R))

/-! ## A concrete demo instantiation of the collaborator interface, used to
evaluate the theorems at concrete inputs (the collaborator is abstract — "a
group with known generator and order" — so any lawful instance serves). -/

/-- Demo hash: 32 copies of the byte sum mod 256 (any function of the input
with 32 single-byte outputs satisfies the collaborator contract). -/
def demoSm3 (bs : List Nat) : List Nat := List.replicate 32 (bs.foldl (· + ·) 0 % 256)

/-- Demo collaborator over the cyclic group `ZMod 7` with generator 1; the
`y` coordinate of every point is 0. -/
def demoCtx : SM2Ctx (ZMod 7) where
  sm3 := demoSm3
  n := 7
  G := 1
  padd := fun P Q => P + Q
  smul := fun k P => (k : ZMod 7) * P
  xc := fun P => P.val
  yc := fun _ => 0
  decodeAffine := fun x y => if x < 7 ∧ y = 0 then some ((x : ZMod 7)) else none
  inv := fun a => [0, 1, 4, 5, 2, 3, 6].getD (a % 7) 0
  ca := 0
  cb := 0

theorem demoCtx_lawful : demoCtx.Lawful where
  sm3_len := by intro bs; simp [demoCtx, demoSm3]
  sm3_lt := by
    intro bs b hb
    have hb' : b ∈ List.replicate 32 (bs.foldl (· + ·) 0 % 256) := hb
    have := List.eq_of_mem_replicate hb'
    omega
  n_prime := by
    show Nat.Prime 7
    norm_num
  n_le := by
    show (7 : Nat) ≤ 2 ^ 256
    norm_num
  xc_lt := by
    intro P
    show P.val < 2 ^ 256
    have h1 : P.val < 7 := ZMod.val_lt P
    have h2 : (7 : Nat) < 2 ^ 256 := by norm_num
    omega
  yc_lt := by
    intro P
    show (0 : Nat) < 2 ^ 256
    positivity
  smul_smul := by
    intro a b
    show (a : ZMod 7) * ((b : ZMod 7) * 1) = ((a * b : Nat) : ZMod 7) * 1
    push_cast
    ring
  add_smul := by
    intro a b
    show (a : ZMod 7) * 1 + (b : ZMod 7) * 1 = ((a + b : Nat) : ZMod 7) * 1
    push_cast
    ring
  smul_mod := by
    intro a
    show ((a % 7 : Nat) : ZMod 7) * 1 = (a : ZMod 7) * 1
    rw [ZMod.natCast_mod]
  decode_xy := by
    intro P
    show (if P.val < 7 ∧ (0 : Nat) = 0 then some ((P.val : ZMod 7)) else none) = some P
    rw [if_pos ⟨ZMod.val_lt P, rfl⟩, ZMod.natCast_rightInverse P]
  inv_spec := by
    intro a hcop
    show ([0, 1, 4, 5, 2, 3, 6].getD (a % 7) 0 * a) % 7 = 1
    have hm : a % 7 < 7 := Nat.mod_lt _ (by omega)
    have hmul : ([0, 1, 4, 5, 2, 3, 6].getD (a % 7) 0 * a) % 7 =
        ([0, 1, 4, 5, 2, 3, 6].getD (a % 7) 0 * (a % 7)) % 7 := by
      conv_lhs => rw [Nat.mul_mod]
      conv_rhs => rw [Nat.mul_mod, Nat.mod_mod_of_dvd a (dvd_refl 7)]
    rw [hmul]
    have hcop' : Nat.gcd (a % 7) 7 = 1 := hcop
    interval_cases h : (a % 7) <;> simp_all
  ca_lt := by
    show (0 : Nat) < 2 ^ 256
    positivity
  cb_lt := by
    show (0 : Nat) < 2 ^ 256
    positivity

/-! ## Shared helper lemmas about the translated functions -/

theorem and255_eq_mod (v : Nat) : v &&& 255 = v % 256 := by
  have h255 : (255 : Nat) = 2 ^ 8 - 1 := rfl
  have h256 : (256 : Nat) = 2 ^ 8 := rfl
  rw [h255, h256, Nat.and_pow_two_sub_one_eq_mod]

theorem shiftRight8_eq_div (v : Nat) : v >>> 8 = v / 256 := by
  rw [Nat.shiftRight_eq_div_pow]

theorem length_pubKeyHexOf (C : SM2Ctx Pt) (hL : C.Lawful) (P : Pt) :
    (C.pubKeyHexOf P).length = 130 := by
  show (C.pubKeyHexOf P).data.length = 130
  rw [data_pubKeyHexOf]
  simp only [List.length_cons, List.length_append,
    length_pad64_of_lt (hL.xc_lt P), length_pad64_of_lt (hL.yc_lt P)]

theorem c1_drop_two (C : SM2Ctx Pt) (hL : C.Lawful) (P : Pt) :
    ((⟨(C.pubKeyHexOf P).data.drop ((C.pubKeyHexOf P).length - 128)⟩ : String)) =
      leftPad (numberToHexUnpadded (C.xc P)) 64 ++
        leftPad (numberToHexUnpadded (C.yc P)) 64 := by
  have h1 : (C.pubKeyHexOf P).length - 128 = 2 := by rw [length_pubKeyHexOf C hL]
  rw [h1, data_pubKeyHexOf]
  have h2 : ('0' :: '4' :: ((leftPad (numberToHexUnpadded (C.xc P)) 64).data ++
      (leftPad (numberToHexUnpadded (C.yc P)) 64).data)).drop 2 =
      (leftPad (numberToHexUnpadded (C.xc P)) 64).data ++
        (leftPad (numberToHexUnpadded (C.yc P)) 64).data := rfl
  rw [h2, ← data_append]

theorem hexToArray_append (s t : String) (h : s.length % 2 = 0) :
    hexToArray (s ++ t) = hexToArray s ++ hexToArray t := by
  unfold hexToArray
  rw [data_append]
  exact hexPairsToBytes_append h

theorem length_hexToArray (s : String) :
    (hexToArray s).length = (s.length + 1) / 2 :=
  length_hexPairsToBytes s.data

theorem hexToNumber_multiply_pad (C : SM2Ctx Pt) (P : Pt) (k : Nat)
    (hk1 : 1 ≤ k) (hk2 : k < C.n) :
    C.multiply P k = .ok (C.smul k P) := by
  unfold SM2Ctx.multiply
  rw [if_pos ⟨hk1, hk2⟩]

theorem leftPad_of_ge (s : String) (m : Nat) (h : m ≤ s.length) : leftPad s m = s := by
  unfold leftPad
  rw [if_pos h]

theorem signLoop_spec (C : SM2Ctx Pt) (e dA : Nat) (pts : List SigPoint) (r s k : Nat)
    (h : signLoop C e dA pts = some (r, s, k)) :
    r ≠ 0 ∧ s ≠ 0 ∧ r + k ≠ C.n ∧ ∃ pt ∈ pts, pt.k = k ∧ r = (e + pt.x1) % C.n ∧
      s = nobleMod ((C.inv (dA + 1) : Int) * ((k : Int) - (r : Int) * (dA : Int))) C.n := by
  induction pts with
  | nil => exact absurd h (by simp [signLoop])
  | cons pt rest ih =>
    simp only [signLoop] at h
    by_cases h1 : (e + pt.x1) % C.n = 0 ∨ (e + pt.x1) % C.n + pt.k = C.n
    · rw [if_pos h1] at h
      obtain ⟨hr, hs, hrk, pt', hmem, hpt⟩ := ih h
      exact ⟨hr, hs, hrk, pt', List.mem_cons_of_mem _ hmem, hpt⟩
    · rw [if_neg h1] at h
      by_cases h2 : nobleMod ((C.inv (dA + 1) : Int) *
          ((pt.k : Int) - (((e + pt.x1) % C.n : Nat) : Int) * (dA : Int))) C.n = 0
      · rw [if_pos h2] at h
        obtain ⟨hr, hs, hrk, pt', hmem, hpt⟩ := ih h
        exact ⟨hr, hs, hrk, pt', List.mem_cons_of_mem _ hmem, hpt⟩
      · rw [if_neg h2] at h
        simp only [Option.some.injEq, Prod.mk.injEq] at h
        obtain ⟨hr, hs, hk⟩ := h
        subst hr
        subst hs
        subst hk
        push_neg at h1
        exact ⟨h1.1, h2, h1.2, pt, by simp, rfl, rfl, rfl⟩

/-- C5: for every pair of coordinate buffers `(x2, y2)` and every message,
the stream XORed into the message by `xorCipherStream` is generated
block-by-block as `SM3(x2 || y2 || ct)` with `ct` a 32-bit big-endian counter
starting at 1 and incremented after each block: byte `i` of the message is
XORed with byte `i % 32` of the block hashed with counter `1 + i / 32`, so a
new block is hashed exactly when the current 32-byte block is exhausted.  The
same `xorCipherStream` is the function both `doEncrypt` and `doDecrypt`
invoke, and applying it twice with the same `(x2, y2)` restores the original
bytes. -/
theorem C5_kdf_stream (sm3f : List Nat → List Nat) (h32 : ∀ bs, (sm3f bs).length = 32)
    (x2 y2 msg : List Nat) :
    xorCipherStream sm3f x2 y2 msg =
      msg.mapIdx (fun i m => m ^^^ (kdfByte sm3f x2 y2 i &&& 255)) ∧
    xorCipherStream sm3f x2 y2 (xorCipherStream sm3f x2 y2 msg) = msg :=
  ⟨xorCipherStream_spec sm3f x2 y2 h32 msg, xorCipherStream_involution sm3f x2 y2 msg⟩

/-- Witness for C5 at a concrete hash, key and message. -/
theorem C5_kdf_stream_witness :
    xorCipherStream demoSm3 [1] [2] [10, 20] =
      [10, 20].mapIdx (fun i m => m ^^^ (kdfByte demoSm3 [1] [2] i &&& 255)) ∧
    xorCipherStream demoSm3 [1] [2] (xorCipherStream demoSm3 [1] [2] [10, 20]) = [10, 20] :=
  C5_kdf_stream demoSm3 (fun bs => by simp [demoSm3]) [1] [2] [10, 20]

/-- C10: in non-DER mode `doVerifySignature` parses `r` from exactly the
first 64 characters of `signHex` and `s` from all remaining characters,
however many there are — no check that `signHex` is exactly 128 hex chars is
performed, and the rest of the computation (`verifyRS`) depends on `signHex`
only through the two parsed integers. -/
theorem C10_raw_parse_split (C : SM2Ctx Pt) (msg : List Nat ⊕ String) (signHex : String)
    (publicKey : String ⊕ Pt) (userId : Option String) :
    doVerifySignature C msg signHex publicKey false false userId =
      verifyRS C (msgHex msg) (hexToNumber ⟨signHex.data.take 64⟩)
        (hexToNumber ⟨signHex.data.drop 64⟩) publicKey ∧
    (∀ hashHex : String,
      getHash C (verifyMsgData msg) (pubKeyHexInput C publicKey) userId = .ok hashHex →
      doVerifySignature C msg signHex publicKey false true userId =
        verifyRS C hashHex (hexToNumber ⟨signHex.data.take 64⟩)
          (hexToNumber ⟨signHex.data.drop 64⟩) publicKey) := by
  constructor
  · rfl
  · intro hashHex hEq
    simp only [doVerifySignature]
    rw [hEq]
    rfl

/-- Witness for C10: a 120-character signature string is split into a 64-char
`r` part and a 56-char `s` part and handed to the common tail unchanged. -/
theorem C10_raw_parse_split_witness :
    doVerifySignature demoCtx (.inl [1]) (⟨List.replicate 120 '1'⟩ : String)
      (.inr (2 : ZMod 7)) false false none =
      verifyRS demoCtx (msgHex (.inl [1]))
        (hexToNumber ⟨((⟨List.replicate 120 '1'⟩ : String)).data.take 64⟩)
        (hexToNumber ⟨((⟨List.replicate 120 '1'⟩ : String)).data.drop 64⟩)
        (.inr (2 : ZMod 7)) :=
  (C10_raw_parse_split demoCtx (.inl [1]) (⟨List.replicate 120 '1'⟩ : String)
    (.inr (2 : ZMod 7)) none).1

/-- C4: every signature the generation loop of `doSignature` accepts
satisfies `r ≠ 0`, `s ≠ 0` and `r + k ≠ n` for the ephemeral `k` that
produced it, with `r = (e + x1) mod n` and
`s = ((1 + d)⁻¹ · (k − r·d)) mod n` computed from some consumed point;
candidates violating the conditions are discarded and the loop retries with
the next point of the stream. -/
theorem C4_sign_loop_invariants (C : SM2Ctx Pt) (msg : List Nat ⊕ String)
    (privateKey : String) (points : List SigPoint) (der hash : Bool)
    (publicKey : Option String) (userId : Option String) (out : String)
    (hsig : doSignature C msg privateKey points der hash publicKey userId = .ok out) :
    ∃ hashHex r s k,
      signHashHex C msg privateKey hash publicKey userId = .ok hashHex ∧
      signLoop C (hexToNumber hashHex) (hexToNumber privateKey) points = some (r, s, k) ∧
      r ≠ 0 ∧ s ≠ 0 ∧ r + k ≠ C.n ∧
      (∃ pt ∈ points, pt.k = k ∧ r = (hexToNumber hashHex + pt.x1) % C.n ∧
        s = nobleMod ((C.inv (hexToNumber privateKey + 1) : Int) *
          ((k : Int) - (r : Int) * ((hexToNumber privateKey : Nat) : Int))) C.n) ∧
      out = (if der then encodeDer r s
        else leftPad (numberToHexUnpadded r) 64 ++ leftPad (numberToHexUnpadded s) 64) := by
  unfold doSignature at hsig
  rcases hh : signHashHex C msg privateKey hash publicKey userId with e | hashHex
  · rw [hh] at hsig
    exact absurd hsig (by simp)
  · rw [hh] at hsig
    dsimp only at hsig
    rcases hl : signLoop C (hexToNumber hashHex) (hexToNumber privateKey) points with
      _ | ⟨r, s, k⟩
    · rw [hl] at hsig
      exact absurd hsig (by simp)
    · rw [hl] at hsig
      simp only [Except.ok.injEq] at hsig
      obtain ⟨hr, hs, hrk, pt, hmem, hk, hreq, hseq⟩ :=
        signLoop_spec C (hexToNumber hashHex) (hexToNumber privateKey) points r s k hl
      exact ⟨hashHex, r, s, k, rfl, hl, hr, hs, hrk,
        ⟨pt, hmem, hk, hreq, hseq⟩, hsig.symm⟩

/-- Witness for C4 at a concrete context, key and point stream. -/
theorem C4_sign_loop_invariants_witness :
    ∃ hashHex r s k,
      signHashHex demoCtx (.inl [1]) "02" false none none = .ok hashHex ∧
      signLoop demoCtx (hexToNumber hashHex) (hexToNumber "02") [⟨2, 2⟩] = some (r, s, k) ∧
      r ≠ 0 ∧ s ≠ 0 ∧ r + k ≠ demoCtx.n ∧
      (∃ pt ∈ [(⟨2, 2⟩ : SigPoint)], pt.k = k ∧
        r = (hexToNumber hashHex + pt.x1) % demoCtx.n ∧
        s = nobleMod ((demoCtx.inv (hexToNumber "02" + 1) : Int) *
          ((k : Int) - (r : Int) * ((hexToNumber "02" : Nat) : Int))) demoCtx.n) ∧
      (if false then encodeDer r s
        else leftPad (numberToHexUnpadded r) 64 ++ leftPad (numberToHexUnpadded s) 64) =
        (if false then encodeDer r s
        else leftPad (numberToHexUnpadded r) 64 ++ leftPad (numberToHexUnpadded s) 64) := by
  obtain ⟨hashHex, r, s, k, h1, h2, h3, h4, h5, h6, h7⟩ :=
    C4_sign_loop_invariants demoCtx (.inl [1]) "02" [⟨2, 2⟩] false false none none
      (leftPad (numberToHexUnpadded 3) 64 ++ leftPad (numberToHexUnpadded 1) 64) (by rfl)
  exact ⟨hashHex, r, s, k, h1, h2, h3, h4, h5, h6, rfl⟩

/-- C9 counterexample: the public-key hex produced by
`getPublicKeyFromPrivateKey` is not 128 hex characters — it is 130 (the
uncompressed encoding including the leading `04` byte). -/
theorem C9_counterexample :
    (getPublicKeyFromPrivateKey demoCtx "02").length ≠ 128 ∧
    (getPublicKeyFromPrivateKey demoCtx "02").length = 130 := by
  constructor
  · decide
  · decide

/-- C9 (amended): for every private key, `getPublicKeyFromPrivateKey` outputs
exactly 130 hex characters — the uncompressed `04 || X || Y` with each
coordinate zero-padded big-endian to 64 hex chars, the leading `04` prefix
included (the outer `leftPad(…, 64)` is a no-op on the 130-char string). -/
theorem C9_public_key_hex (C : SM2Ctx Pt) (hL : C.Lawful) (privateKey : String) :
    getPublicKeyFromPrivateKey C privateKey =
      "04" ++ leftPad (numberToHexUnpadded
          (C.xc (C.smul (hexToNumber privateKey) C.G))) 64 ++
        leftPad (numberToHexUnpadded
          (C.yc (C.smul (hexToNumber privateKey) C.G))) 64 ∧
    (getPublicKeyFromPrivateKey C privateKey).length = 130 ∧
    (getPublicKeyFromPrivateKey C privateKey).data.take 2 = ['0', '4'] := by
  have hpad : getPublicKeyFromPrivateKey C privateKey =
      C.pubKeyHexOf (C.smul (hexToNumber privateKey) C.G) := by
    unfold getPublicKeyFromPrivateKey
    exact leftPad_of_ge _ _ (by rw [length_pubKeyHexOf C hL]; omega)
  refine ⟨?_, ?_, ?_⟩
  · rw [hpad]; rfl
  · rw [hpad]; exact length_pubKeyHexOf C hL _
  · rw [hpad, data_pubKeyHexOf]; rfl

/-- Witness for the amended C9 at a concrete context and key. -/
theorem C9_public_key_hex_witness :
    getPublicKeyFromPrivateKey demoCtx "02" =
      "04" ++ leftPad (numberToHexUnpadded
          (demoCtx.xc (demoCtx.smul (hexToNumber "02") demoCtx.G))) 64 ++
        leftPad (numberToHexUnpadded
          (demoCtx.yc (demoCtx.smul (hexToNumber "02") demoCtx.G))) 64 ∧
    (getPublicKeyFromPrivateKey demoCtx "02").length = 130 ∧
    (getPublicKeyFromPrivateKey demoCtx "02").data.take 2 = ['0', '4'] :=
  C9_public_key_hex demoCtx demoCtx_lawful "02"

/-- C7: for a 128-hex public key and any userId, the identity hash computed
by `getZ` is `Z = SM3(ENTL || userId || a || b || gx || gy || px || py)`,
where ENTL is the bit length (8 × byte count) of the UTF-8 userId encoded as
a 16-bit big-endian integer, the curve fields are 32-byte big-endian
zero-padded values and `px`, `py` are the two 64-hex halves of the key; the
userId defaults to "1234567812345678", and the pre-hash is
`e = SM3(Z || M)` (`getHash`).  Determinism is immediate: `getZ` and
`getHash` are functions of their arguments. -/
theorem C7_identity_hash (C : SM2Ctx Pt) (hL : C.Lawful) (publicKey : String)
    (uidStr : String) (hpk : publicKey.length = 128) :
    getZ C publicKey (some uidStr) = .ok (C.sm3 (
      [8 * (utf8Bytes uidStr).length / 256 % 256, 8 * (utf8Bytes uidStr).length % 256] ++
      (utf8Bytes uidStr ++ hexToArray (leftPad (numberToHexUnpadded C.ca) 64) ++
        hexToArray (leftPad (numberToHexUnpadded C.cb) 64) ++
        hexToArray (leftPad (numberToHexUnpadded (C.xc C.G)) 64) ++
        hexToArray (leftPad (numberToHexUnpadded (C.yc C.G)) 64) ++
        hexToArray ((⟨publicKey.data.take 64⟩ : String)) ++
        hexToArray ((⟨(publicKey.data.take 128).drop 64⟩ : String))))) ∧
    (hexToArray (leftPad (numberToHexUnpadded C.ca) 64)).length = 32 ∧
    (hexToArray (leftPad (numberToHexUnpadded C.cb) 64)).length = 32 ∧
    (hexToArray (leftPad (numberToHexUnpadded (C.xc C.G)) 64)).length = 32 ∧
    (hexToArray (leftPad (numberToHexUnpadded (C.yc C.G)) 64)).length = 32 ∧
    (hexToArray ((⟨publicKey.data.take 64⟩ : String))).length = 32 ∧
    (hexToArray ((⟨(publicKey.data.take 128).drop 64⟩ : String))).length = 32 ∧
    getZ C publicKey none = getZ C publicKey (some defaultUserId) ∧
    (∀ (mh : String) (z : List Nat), getZ C publicKey (some uidStr) = .ok z →
      getHash C (.inl mh) publicKey (some uidStr) =
        .ok (bytesToHex (C.sm3 (z ++ hexToArray mh)))) := by
  have hdlen : publicKey.data.length = 128 := hpk
  have hL2 : (utf8ToHex uidStr).length = 2 * (utf8Bytes uidStr).length :=
    length_bytesToHex _
  have hA : (leftPad (numberToHexUnpadded C.ca) 64).length = 64 :=
    length_pad64 (by rw [pow16_64]; exact hL.ca_lt)
  have hB : (leftPad (numberToHexUnpadded C.cb) 64).length = 64 :=
    length_pad64 (by rw [pow16_64]; exact hL.cb_lt)
  have hGx : (leftPad (numberToHexUnpadded (C.xc C.G)) 64).length = 64 :=
    length_pad64 (by rw [pow16_64]; exact hL.xc_lt C.G)
  have hGy : (leftPad (numberToHexUnpadded (C.yc C.G)) 64).length = 64 :=
    length_pad64 (by rw [pow16_64]; exact hL.yc_lt C.G)
  have hPx : ((⟨publicKey.data.take 64⟩ : String)).length = 64 := by
    show (publicKey.data.take 64).length = 64
    rw [List.length_take]
    omega
  have hPy : ((⟨(publicKey.data.take 128).drop 64⟩ : String)).length = 64 := by
    show ((publicKey.data.take 128).drop 64).length = 64
    rw [List.length_drop, List.length_take]
    omega
  refine ⟨?_, ?_, ?_, ?_, ?_, ?_, ?_, ?_, ?_⟩
  · simp only [getZ, Option.getD_some]
    rw [if_pos hpk]
    refine congrArg Except.ok (congrArg C.sm3 ?_)
    have he1 : ((utf8ToHex uidStr).length * 4) >>> 8 &&& 255 =
        8 * (utf8Bytes uidStr).length / 256 % 256 := by
      rw [hL2, shiftRight8_eq_div, and255_eq_mod]
      congr 2
      ring
    have he2 : (utf8ToHex uidStr).length * 4 &&& 255 =
        8 * (utf8Bytes uidStr).length % 256 := by
      rw [hL2, and255_eq_mod]
      congr 1
      ring
    rw [he1, he2]
    refine congrArg (fun l => _ :: _ :: l) ?_
    have e0 : (utf8ToHex uidStr).length % 2 = 0 := by omega
    have e1 : (utf8ToHex uidStr ++ leftPad (numberToHexUnpadded C.ca) 64).length % 2 = 0 := by
      rw [length_append_str]; omega
    have e2 : (utf8ToHex uidStr ++ leftPad (numberToHexUnpadded C.ca) 64 ++
        leftPad (numberToHexUnpadded C.cb) 64).length % 2 = 0 := by
      rw [length_append_str, length_append_str]; omega
    have e3 : (utf8ToHex uidStr ++ leftPad (numberToHexUnpadded C.ca) 64 ++
        leftPad (numberToHexUnpadded C.cb) 64 ++
        leftPad (numberToHexUnpadded (C.xc C.G)) 64).length % 2 = 0 := by
      rw [length_append_str, length_append_str, length_append_str]; omega
    have e4 : (utf8ToHex uidStr ++ leftPad (numberToHexUnpadded C.ca) 64 ++
        leftPad (numberToHexUnpadded C.cb) 64 ++
        leftPad (numberToHexUnpadded (C.xc C.G)) 64 ++
        leftPad (numberToHexUnpadded (C.yc C.G)) 64).length % 2 = 0 := by
      rw [length_append_str, length_append_str, length_append_str, length_append_str]
      omega
    have e5 : (utf8ToHex uidStr ++ leftPad (numberToHexUnpadded C.ca) 64 ++
        leftPad (numberToHexUnpadded C.cb) 64 ++
        leftPad (numberToHexUnpadded (C.xc C.G)) 64 ++
        leftPad (numberToHexUnpadded (C.yc C.G)) 64 ++
        (⟨publicKey.data.take 64⟩ : String)).length % 2 = 0 := by
      rw [length_append_str, length_append_str, length_append_str, length_append_str,
        length_append_str]
      omega
    rw [hexToArray_append _ _ e5, hexToArray_append _ _ e4, hexToArray_append _ _ e3,
      hexToArray_append _ _ e2, hexToArray_append _ _ e1, hexToArray_append _ _ e0]
    rw [show hexToArray (utf8ToHex uidStr) = utf8Bytes uidStr from
      hexToArray_bytesToHex (utf8Bytes_lt uidStr)]
  · rw [length_hexToArray, hA]
  · rw [length_hexToArray, hB]
  · rw [length_hexToArray, hGx]
  · rw [length_hexToArray, hGy]
  · rw [length_hexToArray, hPx]
  · rw [length_hexToArray, hPy]
  · rfl
  · intro mh z hz
    unfold getHash
    rw [hz]

/-- Witness for C7 at a concrete context, 128-hex key and userId. -/
theorem C7_identity_hash_witness :
    getZ demoCtx (⟨List.replicate 128 '0'⟩ : String) (some "a") = .ok (demoCtx.sm3 (
      [8 * (utf8Bytes "a").length / 256 % 256, 8 * (utf8Bytes "a").length % 256] ++
      (utf8Bytes "a" ++ hexToArray (leftPad (numberToHexUnpadded demoCtx.ca) 64) ++
        hexToArray (leftPad (numberToHexUnpadded demoCtx.cb) 64) ++
        hexToArray (leftPad (numberToHexUnpadded (demoCtx.xc demoCtx.G)) 64) ++
        hexToArray (leftPad (numberToHexUnpadded (demoCtx.yc demoCtx.G)) 64) ++
        hexToArray ((⟨(⟨List.replicate 128 '0'⟩ : String).data.take 64⟩ : String)) ++
        hexToArray ((⟨((⟨List.replicate 128 '0'⟩ : String).data.take 128).drop 64⟩
          : String))))) :=
  (C7_identity_hash demoCtx demoCtx_lawful (⟨List.replicate 128 '0'⟩ : String) "a"
    (by decide)).1

theorem verify_factor_raw (C : SM2Ctx Pt) (msg : List Nat ⊕ String) (signHex : String)
    (pk : String ⊕ Pt) (userId : Option String) :
    doVerifySignature C msg signHex pk false false userId =
      verifyRS C (msgHex msg) (hexToNumber ⟨signHex.data.take 64⟩)
        (hexToNumber ⟨signHex.data.drop 64⟩) pk := rfl

theorem verify_factor_der (C : SM2Ctx Pt) (msg : List Nat ⊕ String) (signHex : String)
    (pk : String ⊕ Pt) (userId : Option String) (r s : Nat)
    (hder : decodeDer signHex = some (r, s)) :
    doVerifySignature C msg signHex pk true false userId =
      verifyRS C (msgHex msg) r s pk := by
  simp only [doVerifySignature]
  rw [hder]
  rfl

theorem verifyRS_cases (C : SM2Ctx Pt) (hL : C.Lawful) (hashHex : String) (r s : Nat)
    (pk : String ⊕ Pt) (PA : Pt) (hpk : resolvePublicKey C pk = .ok PA) :
    ((r + s) % C.n = 0 → verifyRS C hashHex r s pk = .ok false) ∧
    ((r + s) % C.n ≠ 0 → ¬(1 ≤ s ∧ s < C.n) →
      verifyRS C hashHex r s pk = .error "invalid scalar: out of range") ∧
    (1 ≤ s → s < C.n → C.n ≤ r → verifyRS C hashHex r s pk = .ok false) := by
  have hnpos : 0 < C.n := hL.n_prime.pos
  refine ⟨?_, ?_, ?_⟩
  · intro h0
    simp only [verifyRS]
    rw [hpk]
    dsimp only
    rw [if_pos h0]
  · intro h0 hs
    simp only [verifyRS]
    rw [hpk]
    dsimp only
    rw [if_neg h0]
    have hmul : C.multiply C.G s = .error "invalid scalar: out of range" := by
      unfold SM2Ctx.multiply
      rw [if_neg hs]
    rw [hmul]
  · intro hs1 hs2 hr
    by_cases h0 : (r + s) % C.n = 0
    · simp only [verifyRS]
      rw [hpk]
      dsimp only
      rw [if_pos h0]
    · simp only [verifyRS]
      rw [hpk]
      dsimp only
      rw [if_neg h0]
      rw [hexToNumber_multiply_pad C C.G s hs1 hs2]
      rw [hexToNumber_multiply_pad C PA ((r + s) % C.n) (by omega) (Nat.mod_lt _ hnpos)]
      dsimp only
      have hR : (hexToNumber hashHex +
          C.xc (C.padd (C.smul s C.G) (C.smul ((r + s) % C.n) PA))) % C.n < C.n :=
        Nat.mod_lt _ hnpos
      have : decide (r = (hexToNumber hashHex +
          C.xc (C.padd (C.smul s C.G) (C.smul ((r + s) % C.n) PA))) % C.n) = false :=
        decide_eq_false (by omega)
      rw [this]

/-- C3 counterexample: the verifier performs no range check on `(r, s)` —
with `s = 7 = n` (outside `[1, n-1]`) and `r = 1`, `doVerifySignature` does
not return `false`: the scalar multiplication throws, so rejection is
signalled by an error, contradicting the claim that rejection is signalled
only by the boolean result. -/
theorem C3_counterexample :
    doVerifySignature demoCtx (.inl [1])
      (leftPad (numberToHexUnpadded 1) 64 ++ numberToHexUnpadded 7)
      (.inl (demoCtx.pubKeyHexOf (2 : ZMod 7))) false false none =
      .error "invalid scalar: out of range" := by
  rfl

/-- C3 (amended): `doVerifySignature` performs no explicit range check on the
recovered `(r, s)` (DER or raw framing).  When `(r + s) mod n = 0` it returns
`false`; otherwise an `s ∉ [1, n-1]` makes the scalar multiplication throw —
an error, not a `false` — and when `s ∈ [1, n-1]` the result is the boolean
`r = (e + x1') mod n`, which is `false` for every `r ≥ n` but involves no
dedicated rejection of out-of-range `r` (in particular `r = 0` is not
specially rejected). -/
theorem C3_range_behaviour (C : SM2Ctx Pt) (hL : C.Lawful) (msg : List Nat ⊕ String)
    (signHex : String) (pk : String ⊕ Pt) (userId : Option String) (PA : Pt)
    (hpk : resolvePublicKey C pk = .ok PA) (r s : Nat) (der : Bool)
    (hframe : if der then decodeDer signHex = some (r, s)
      else r = hexToNumber ⟨signHex.data.take 64⟩ ∧
        s = hexToNumber ⟨signHex.data.drop 64⟩) :
    ((r + s) % C.n = 0 →
      doVerifySignature C msg signHex pk der false userId = .ok false) ∧
    ((r + s) % C.n ≠ 0 → ¬(1 ≤ s ∧ s < C.n) →
      doVerifySignature C msg signHex pk der false userId =
        .error "invalid scalar: out of range") ∧
    (1 ≤ s → s < C.n → C.n ≤ r →
      doVerifySignature C msg signHex pk der false userId = .ok false) := by
  have hfac : doVerifySignature C msg signHex pk der false userId =
      verifyRS C (msgHex msg) r s pk := by
    cases der with
    | true =>
      have hframe2 : decodeDer signHex = some (r, s) := hframe
      exact verify_factor_der C msg signHex pk userId r s hframe2
    | false =>
      have hframe2 : r = hexToNumber ⟨signHex.data.take 64⟩ ∧
          s = hexToNumber ⟨signHex.data.drop 64⟩ := hframe
      obtain ⟨hr, hs⟩ := hframe2
      rw [hr, hs]
      exact verify_factor_raw C msg signHex pk userId
  rw [hfac]
  exact verifyRS_cases C hL (msgHex msg) r s pk PA hpk

/-- Witness for the amended C3: with `r = 9 ≥ n` and `s = 1` the verifier
returns `ok false` through the final comparison. -/
theorem C3_range_behaviour_witness :
    doVerifySignature demoCtx (.inl [1])
      (leftPad (numberToHexUnpadded 9) 64 ++ leftPad (numberToHexUnpadded 1) 64)
      (.inl (demoCtx.pubKeyHexOf (2 : ZMod 7))) false false none = .ok false :=
  (C3_range_behaviour demoCtx demoCtx_lawful (.inl [1])
    (leftPad (numberToHexUnpadded 9) 64 ++ leftPad (numberToHexUnpadded 1) 64)
    (.inl (demoCtx.pubKeyHexOf (2 : ZMod 7))) none (2 : ZMod 7) (by rfl) 9 1 false
    (by constructor <;> decide)).2.2 (by decide) (by decide) (by decide)

/-! ## Normal forms of `doEncrypt` (names for the intermediate values the
source builds: `x2`, `y2`, `c1`, `c2`, `c3`) -/

/-- Byte buffer of the padded `x` coordinate — the source's `x2`. -/
def encX2 (C : SM2Ctx Pt) (Q : Pt) : List Nat :=
  hexToArray (leftPad (numberToHexUnpadded (C.xc Q)) 64)

/-- Byte buffer of the padded `y` coordinate — the source's `y2`. -/
def encY2 (C : SM2Ctx Pt) (Q : Pt) : List Nat :=
  hexToArray (leftPad (numberToHexUnpadded (C.yc Q)) 64)

/-- Hex of `C1` with the `04` prefix stripped — `x1 || y1`, 128 chars. -/
def encC1 (C : SM2Ctx Pt) (Q : Pt) : String :=
  leftPad (numberToHexUnpadded (C.xc Q)) 64 ++ leftPad (numberToHexUnpadded (C.yc Q)) 64

/-- Hex of `C3 = SM3(x2 || M || y2)`. -/
def encC3 (C : SM2Ctx Pt) (Q : Pt) (m : List Nat) : String :=
  bytesToHex (C.sm3 (encX2 C Q ++ m ++ encY2 C Q))

/-- Hex of `C2` — the XOR-encrypted message body. -/
def encC2 (C : SM2Ctx Pt) (Q : Pt) (m : List Nat) : String :=
  bytesToHex (xorCipherStream C.sm3 (encX2 C Q) (encY2 C Q) m)

theorem doEncrypt_hex_eq (C : SM2Ctx Pt) (hL : C.Lawful) (msg : List Nat ⊕ String)
    (pk : String ⊕ Pt) (P : Pt) (hpk : resolvePublicKey C pk = .ok P)
    (k : Nat) (hk1 : 1 ≤ k) (hk2 : k < C.n) (mode : Nat) :
    doEncrypt C msg pk mode false k = .ok
      (if mode = 0 then
        encC1 C (C.smul k C.G) ++ encC2 C (C.smul k P) (msgBytes msg) ++
          encC3 C (C.smul k P) (msgBytes msg)
      else
        encC1 C (C.smul k C.G) ++ encC3 C (C.smul k P) (msgBytes msg) ++
          encC2 C (C.smul k P) (msgBytes msg)) := by
  unfold doEncrypt generateKeyPairHex
  rw [hpk]
  dsimp only
  rw [hexToNumber_pad64 k]
  rw [hexToNumber_multiply_pad C P k hk1 hk2]
  dsimp only
  rw [if_neg (show ¬ ((false : Bool) = true) from by simp)]
  rw [if_pos (show 128 < (C.pubKeyHexOf (C.smul k C.G)).length from by
    rw [length_pubKeyHexOf C hL]; omega)]
  rw [c1_drop_two C hL (C.smul k C.G)]
  by_cases hm : mode = 0
  · rw [if_pos hm, if_pos hm]
    rfl
  · rw [if_neg hm, if_neg hm]
    rfl

theorem doEncrypt_asn1_eq (C : SM2Ctx Pt) (hL : C.Lawful) (msg : List Nat ⊕ String)
    (pk : String ⊕ Pt) (P : Pt) (hpk : resolvePublicKey C pk = .ok P)
    (k : Nat) (hk1 : 1 ≤ k) (hk2 : k < C.n) (mode : Nat) :
    doEncrypt C msg pk mode true k = .ok
      (if mode = 0 then
        encodeEnc (C.xc (C.smul k C.G)) (C.yc (C.smul k C.G))
          (encC2 C (C.smul k P) (msgBytes msg)) (encC3 C (C.smul k P) (msgBytes msg))
      else
        encodeEnc (C.xc (C.smul k C.G)) (C.yc (C.smul k C.G))
          (encC3 C (C.smul k P) (msgBytes msg)) (encC2 C (C.smul k P) (msgBytes msg))) := by
  unfold doEncrypt generateKeyPairHex
  rw [hpk]
  dsimp only
  rw [hexToNumber_pad64 k]
  rw [hexToNumber_multiply_pad C P k hk1 hk2]
  dsimp only
  rw [if_pos (show (true : Bool) = true from rfl)]
  rw [fromHexPoint_pubKeyHexOf C hL (C.smul k C.G)]
  dsimp only
  by_cases hm : mode = 0
  · rw [if_pos hm, if_pos hm]
    rfl
  · rw [if_neg hm, if_neg hm]
    rfl

/-- C8: the non-ASN.1 hex ciphertext of `doEncrypt` is exactly the three
fields `C1` (128 hex chars, `x1 || y1` with no `04` prefix), `C3` (64 hex
chars) and `C2` (`2·|M|` hex chars), concatenated `C1 C3 C2` by default and
`C1 C2 C3` in mode 0, for a total of `192 + 2·|M|` hex chars (202 for a
5-byte message, 192 with an empty `C2` for the empty message). -/
theorem C8_ciphertext_framing (C : SM2Ctx Pt) (hL : C.Lawful) (msg : List Nat ⊕ String)
    (pk : String ⊕ Pt) (P : Pt) (hpk : resolvePublicKey C pk = .ok P)
    (k : Nat) (hk1 : 1 ≤ k) (hk2 : k < C.n) (mode : Nat) :
    ∃ enc, doEncrypt C msg pk mode false k = .ok enc ∧
      enc = (if mode = 0 then
          encC1 C (C.smul k C.G) ++ encC2 C (C.smul k P) (msgBytes msg) ++
            encC3 C (C.smul k P) (msgBytes msg)
        else
          encC1 C (C.smul k C.G) ++ encC3 C (C.smul k P) (msgBytes msg) ++
            encC2 C (C.smul k P) (msgBytes msg)) ∧
      encC1 C (C.smul k C.G) =
        leftPad (numberToHexUnpadded (C.xc (C.smul k C.G))) 64 ++
          leftPad (numberToHexUnpadded (C.yc (C.smul k C.G))) 64 ∧
      (encC1 C (C.smul k C.G)).length = 128 ∧
      (encC3 C (C.smul k P) (msgBytes msg)).length = 64 ∧
      (encC2 C (C.smul k P) (msgBytes msg)).length = 2 * (msgBytes msg).length ∧
      enc.length = 192 + 2 * (msgBytes msg).length := by
  have hc1 : (encC1 C (C.smul k C.G)).length = 128 := by
    unfold encC1
    rw [length_append_str, length_pad64 (by rw [pow16_64]; exact hL.xc_lt _),
      length_pad64 (by rw [pow16_64]; exact hL.yc_lt _)]
  have hc3 : (encC3 C (C.smul k P) (msgBytes msg)).length = 64 := by
    unfold encC3
    rw [length_bytesToHex, hL.sm3_len]
  have hc2 : (encC2 C (C.smul k P) (msgBytes msg)).length = 2 * (msgBytes msg).length := by
    unfold encC2
    rw [length_bytesToHex, length_xorCipherStream]
  refine ⟨_, doEncrypt_hex_eq C hL msg pk P hpk k hk1 hk2 mode, rfl, rfl, hc1, hc3, hc2, ?_⟩
  by_cases hm : mode = 0
  · rw [if_pos hm, length_append_str, length_append_str, hc1, hc2, hc3]
    omega
  · rw [if_neg hm, length_append_str, length_append_str, hc1, hc2, hc3]

/-- Witness for C8 at a concrete context, key, message and mode. -/
theorem C8_ciphertext_framing_witness :
    ∃ enc, doEncrypt demoCtx (.inl [104, 105]) (.inr (2 : ZMod 7)) 1 false 3 = .ok enc ∧
      enc = (if 1 = 0 then
          encC1 demoCtx (demoCtx.smul 3 demoCtx.G) ++
            encC2 demoCtx (demoCtx.smul 3 (2 : ZMod 7)) (msgBytes (.inl [104, 105])) ++
            encC3 demoCtx (demoCtx.smul 3 (2 : ZMod 7)) (msgBytes (.inl [104, 105]))
        else
          encC1 demoCtx (demoCtx.smul 3 demoCtx.G) ++
            encC3 demoCtx (demoCtx.smul 3 (2 : ZMod 7)) (msgBytes (.inl [104, 105])) ++
            encC2 demoCtx (demoCtx.smul 3 (2 : ZMod 7)) (msgBytes (.inl [104, 105]))) ∧
      encC1 demoCtx (demoCtx.smul 3 demoCtx.G) =
        leftPad (numberToHexUnpadded (demoCtx.xc (demoCtx.smul 3 demoCtx.G))) 64 ++
          leftPad (numberToHexUnpadded (demoCtx.yc (demoCtx.smul 3 demoCtx.G))) 64 ∧
      (encC1 demoCtx (demoCtx.smul 3 demoCtx.G)).length = 128 ∧
      (encC3 demoCtx (demoCtx.smul 3 (2 : ZMod 7)) (msgBytes (.inl [104, 105]))).length = 64 ∧
      (encC2 demoCtx (demoCtx.smul 3 (2 : ZMod 7)) (msgBytes (.inl [104, 105]))).length =
        2 * (msgBytes (.inl [104, 105])).length ∧
      enc.length = 192 + 2 * (msgBytes (.inl [104, 105])).length :=
  C8_ciphertext_framing demoCtx demoCtx_lawful (.inl [104, 105]) (.inr (2 : ZMod 7))
    (2 : ZMod 7) (by rfl) 3 (by decide) (by decide) 1

/-! ## Round-trip infrastructure for decryption -/

theorem str_eq_of_data {a b : String} (h : a.data = b.data) : a = b := by
  cases a
  cases b
  cases h
  rfl

theorem length_encC1 (C : SM2Ctx Pt) (hL : C.Lawful) (Q : Pt) :
    (encC1 C Q).data.length = 128 := by
  show (encC1 C Q).length = 128
  unfold encC1
  rw [length_append_str, length_pad64 (by rw [pow16_64]; exact hL.xc_lt _),
    length_pad64 (by rw [pow16_64]; exact hL.yc_lt _)]

theorem length_encC3 (C : SM2Ctx Pt) (hL : C.Lawful) (Q : Pt) (m : List Nat) :
    (encC3 C Q m).length = 64 := by
  unfold encC3
  rw [length_bytesToHex, hL.sm3_len]

theorem length_encC2 (C : SM2Ctx Pt) (Q : Pt) (m : List Nat) :
    (encC2 C Q m).length = 2 * m.length := by
  unfold encC2
  rw [length_bytesToHex, length_xorCipherStream]

theorem xorCipherStream_lt (sm3f : List Nat → List Nat) (x2 y2 m : List Nat)
    (hm : ∀ b ∈ m, b < 256) : ∀ b ∈ xorCipherStream sm3f x2 y2 m, b < 256 :=
  xorStreamGo_lt sm3f x2 y2 m _ 2 hm

theorem nobleMod_lt (a : Int) (m : Nat) (hm : 0 < m) : nobleMod a m < m := by
  unfold nobleMod
  have hne : (m : Int) ≠ 0 := by exact_mod_cast hm.ne'
  have h1 : a % (m : Int) < m := Int.emod_lt_of_pos a (by exact_mod_cast hm)
  omega

theorem fromHexPoint_c1_reassemble (C : SM2Ctx Pt) (hL : C.Lawful) (Q : Pt) :
    C.fromHexPoint ("04" ++ (⟨(encC1 C Q).data⟩ : String)) = .ok Q := by
  have hstr : ("04" ++ (⟨(encC1 C Q).data⟩ : String)) = C.pubKeyHexOf Q := by
    refine str_eq_of_data ?_
    rw [data_append, data_pubKeyHexOf]
    show '0' :: '4' :: (encC1 C Q).data = _
    unfold encC1
    rw [data_append]
  rw [hstr]
  exact fromHexPoint_pubKeyHexOf C hL Q

theorem decryptParse_mode1 (C : SM2Ctx Pt) (hL : C.Lawful) (Q : Pt) (c3s c2s : String)
    (hc3 : c3s.data.length = 64) (mode : Nat) (hm : mode ≠ 0) :
    decryptParse C (encC1 C Q ++ c3s ++ c2s) mode false = .ok (Q, c2s, c3s) := by
  have hdata : (encC1 C Q ++ c3s ++ c2s).data =
      (encC1 C Q).data ++ (c3s.data ++ c2s.data) := by
    rw [data_append, data_append, List.append_assoc]
  unfold decryptParse
  rw [if_neg (show ¬ ((false : Bool) = true) from by simp)]
  rw [hdata]
  have htake : ((encC1 C Q).data ++ (c3s.data ++ c2s.data)).take 128 = (encC1 C Q).data :=
    take_len_append _ _ 128 (length_encC1 C hL Q)
  rw [htake, fromHexPoint_c1_reassemble C hL Q]
  dsimp only
  rw [if_neg hm]
  have hdropped : ((encC1 C Q).data ++ (c3s.data ++ c2s.data)).drop 128 =
      c3s.data ++ c2s.data := drop_len_append _ _ 128 (length_encC1 C hL Q)
  have hc3part : (((encC1 C Q).data ++ (c3s.data ++ c2s.data)).take 192).drop 128 =
      c3s.data := by
    have h1 : (((encC1 C Q).data ++ (c3s.data ++ c2s.data)).take 192).drop 128 =
        (((encC1 C Q).data ++ (c3s.data ++ c2s.data)).drop 128).take 64 :=
      (List.take_drop 128 64 _).symm
    rw [h1, hdropped, take_len_append _ _ 64 hc3]
  have hc2part : ((encC1 C Q).data ++ (c3s.data ++ c2s.data)).drop 192 = c2s.data := by
    have h1 : ((encC1 C Q).data ++ (c3s.data ++ c2s.data)).drop 192 =
        (((encC1 C Q).data ++ (c3s.data ++ c2s.data)).drop 128).drop 64 := by
      rw [List.drop_drop]
    rw [h1, hdropped, drop_len_append _ _ 64 hc3]
  rw [hc3part, hc2part]

theorem decryptParse_mode0 (C : SM2Ctx Pt) (hL : C.Lawful) (Q : Pt) (c2s c3s : String)
    (hc3 : c3s.data.length = 64) :
    decryptParse C (encC1 C Q ++ c2s ++ c3s) 0 false = .ok (Q, c2s, c3s) := by
  have hdata : (encC1 C Q ++ c2s ++ c3s).data =
      (encC1 C Q).data ++ (c2s.data ++ c3s.data) := by
    rw [data_append, data_append, List.append_assoc]
  have hlen : (encC1 C Q ++ c2s ++ c3s).data.length = 192 + c2s.data.length := by
    rw [hdata, List.length_append, List.length_append, length_encC1 C hL Q, hc3]
    omega
  unfold decryptParse
  rw [if_neg (show ¬ ((false : Bool) = true) from by simp)]
  rw [hdata] at hlen ⊢
  have htake : ((encC1 C Q).data ++ (c2s.data ++ c3s.data)).take 128 = (encC1 C Q).data :=
    take_len_append _ _ 128 (length_encC1 C hL Q)
  rw [htake, fromHexPoint_c1_reassemble C hL Q]
  dsimp only
  rw [if_pos rfl]
  rw [hlen]
  have hdropped : ((encC1 C Q).data ++ (c2s.data ++ c3s.data)).drop 128 =
      c2s.data ++ c3s.data := drop_len_append _ _ 128 (length_encC1 C hL Q)
  have hsub : 192 + c2s.data.length - 64 = 128 + c2s.data.length := by omega
  rw [hsub]
  have hc3part : ((encC1 C Q).data ++ (c2s.data ++ c3s.data)).drop
      (128 + c2s.data.length) = c3s.data := by
    have h1 : ((encC1 C Q).data ++ (c2s.data ++ c3s.data)).drop (128 + c2s.data.length) =
        (((encC1 C Q).data ++ (c2s.data ++ c3s.data)).drop 128).drop c2s.data.length := by
      rw [List.drop_drop]
    rw [h1, hdropped, drop_len_append _ _ _ rfl]
  have hc2part : (((encC1 C Q).data ++ (c2s.data ++ c3s.data)).take
      (128 + c2s.data.length)).drop 128 = c2s.data := by
    have h1 : (((encC1 C Q).data ++ (c2s.data ++ c3s.data)).take
        (128 + c2s.data.length)).drop 128 =
        (((encC1 C Q).data ++ (c2s.data ++ c3s.data)).drop 128).take c2s.data.length :=
      (List.take_drop 128 c2s.data.length _).symm
    rw [h1, hdropped, take_len_append _ _ _ rfl]
  rw [hc3part, hc2part]

theorem decryptParse_asn1_eq (C : SM2Ctx Pt) (hL : C.Lawful) (Q : Pt)
    (third fourth : String) (hlen : third.length < 16 ^ 8) (mode : Nat) :
    decryptParse C (encodeEnc (C.xc Q) (C.yc Q) third fourth) mode true =
      (if mode = 0 then .ok (Q, third, fourth) else .ok (Q, fourth, third)) := by
  unfold decryptParse
  rw [if_pos (show (true : Bool) = true from rfl)]
  rw [decodeEnc_encodeEnc (hL.xc_lt Q) (hL.yc_lt Q) third fourth hlen]
  dsimp only
  rw [hL.decode_xy Q]

theorem decryptCore_roundtrip (C : SM2Ctx Pt) (hL : C.Lawful) (d k : Nat)
    (hd1 : 1 ≤ d) (hd2 : d < C.n) (m : List Nat) (hm : ∀ b ∈ m, b < 256)
    (outputArray : Bool) :
    decryptCore C (C.smul k C.G) (encC2 C (C.smul k (C.smul d C.G)) m)
      (encC3 C (C.smul k (C.smul d C.G)) m) d outputArray =
      .ok (if outputArray then DecOut.arr m else DecOut.str (arrayToUtf8 m)) := by
  unfold decryptCore
  rw [hexToNumber_multiply_pad C _ d hd1 hd2]
  dsimp only
  have hpq : C.smul d (C.smul k C.G) = C.smul k (C.smul d C.G) := by
    rw [hL.smul_smul, hL.smul_smul, Nat.mul_comm]
  rw [hpq]
  simp only [encC2, encC3, encX2, encY2]
  rw [hexToArray_bytesToHex (xorCipherStream_lt C.sm3
    (hexToArray (leftPad (numberToHexUnpadded (C.xc (C.smul k (C.smul d C.G)))) 64))
    (hexToArray (leftPad (numberToHexUnpadded (C.yc (C.smul k (C.smul d C.G)))) 64))
    m hm)]
  rw [xorCipherStream_involution]
  have hcmp : arrayToHex (C.sm3
      (hexToArray (leftPad (numberToHexUnpadded (C.xc (C.smul k (C.smul d C.G)))) 64) ++
        m ++ hexToArray (leftPad (numberToHexUnpadded (C.yc (C.smul k (C.smul d C.G)))) 64))) =
      strToLower (bytesToHex (C.sm3
      (hexToArray (leftPad (numberToHexUnpadded (C.xc (C.smul k (C.smul d C.G)))) 64) ++
        m ++ hexToArray (leftPad (numberToHexUnpadded (C.yc (C.smul k (C.smul d C.G)))) 64)))) := by
    rw [strToLower_bytesToHex]
    rfl
  rw [if_pos hcmp]

theorem doDecrypt_of_doEncrypt (C : SM2Ctx Pt) (hL : C.Lawful)
    (msg : List Nat ⊕ String) (hmsg : ∀ b ∈ msgBytes msg, b < 256)
    (d : Nat) (hd1 : 1 ≤ d) (hd2 : d < C.n)
    (pk : String ⊕ Pt) (hpk : resolvePublicKey C pk = .ok (C.smul d C.G))
    (k : Nat) (hk1 : 1 ≤ k) (hk2 : k < C.n)
    (mode : Nat) (asn1 : Bool) (outputArray : Bool)
    (privHex : String) (hpriv : hexToNumber privHex = d)
    (hlen : 2 * (msgBytes msg).length < 16 ^ 8) (enc : String)
    (henc : doEncrypt C msg pk mode asn1 k = .ok enc) :
    doDecrypt C enc privHex mode outputArray asn1 =
      .ok (if outputArray then DecOut.arr (msgBytes msg)
        else DecOut.str (arrayToUtf8 (msgBytes msg))) := by
  have hc3len : (encC3 C (C.smul k (C.smul d C.G)) (msgBytes msg)).data.length = 64 := by
    show (encC3 C (C.smul k (C.smul d C.G)) (msgBytes msg)).length = 64
    exact length_encC3 C hL _ _
  cases asn1 with
  | false =>
    rw [doEncrypt_hex_eq C hL msg pk _ hpk k hk1 hk2 mode] at henc
    injection henc with henc2
    subst henc2
    unfold doDecrypt
    by_cases hm : mode = 0
    · subst hm
      rw [if_pos rfl]
      rw [decryptParse_mode0 C hL (C.smul k C.G) _ _ hc3len]
      dsimp only
      rw [hpriv]
      exact decryptCore_roundtrip C hL d k hd1 hd2 _ hmsg outputArray
    · rw [if_neg hm]
      rw [decryptParse_mode1 C hL (C.smul k C.G) _ _ hc3len mode hm]
      dsimp only
      rw [hpriv]
      exact decryptCore_roundtrip C hL d k hd1 hd2 _ hmsg outputArray
  | true =>
    rw [doEncrypt_asn1_eq C hL msg pk _ hpk k hk1 hk2 mode] at henc
    injection henc with henc2
    subst henc2
    unfold doDecrypt
    by_cases hm : mode = 0
    · subst hm
      rw [if_pos rfl]
      rw [decryptParse_asn1_eq C hL (C.smul k C.G) _ _
        (by rw [length_encC2]; exact hlen) 0]
      rw [if_pos rfl]
      dsimp only
      rw [hpriv]
      exact decryptCore_roundtrip C hL d k hd1 hd2 _ hmsg outputArray
    · rw [if_neg hm]
      rw [decryptParse_asn1_eq C hL (C.smul k C.G) _ _
        (by rw [length_encC3 C hL]; omega) mode]
      rw [if_neg hm]
      dsimp only
      rw [hpriv]
      exact decryptCore_roundtrip C hL d k hd1 hd2 _ hmsg outputArray

/-- C1: for every valid keypair `(d, P)` with `P = d·G` and every message `M`
(byte buffer or string), decrypting the output of `doEncrypt(M, P, mode)`
with `doDecrypt(·, d, mode)` in the same framing mode recovers `M` exactly —
the byte buffer under output `array`, the original string under output
`string` — in both framing modes, with and without the ASN.1 encoding, for
every ephemeral scalar `k ∈ [1, n-1]` drawn by the key generator. -/
theorem C1_encrypt_decrypt (C : SM2Ctx Pt) (hL : C.Lawful)
    (d : Nat) (hd1 : 1 ≤ d) (hd2 : d < C.n)
    (pk : String ⊕ Pt) (hpk : resolvePublicKey C pk = .ok (C.smul d C.G))
    (privHex : String) (hpriv : hexToNumber privHex = d)
    (k : Nat) (hk1 : 1 ≤ k) (hk2 : k < C.n) (mode : Nat) (asn1 : Bool) :
    (∀ bs : List Nat, (∀ b ∈ bs, b < 256) → 2 * bs.length < 16 ^ 8 →
      ∀ enc, doEncrypt C (.inl bs) pk mode asn1 k = .ok enc →
        doDecrypt C enc privHex mode true asn1 = .ok (DecOut.arr bs)) ∧
    (∀ s : String, 2 * (utf8Bytes s).length < 16 ^ 8 →
      ∀ enc, doEncrypt C (.inr s) pk mode asn1 k = .ok enc →
        doDecrypt C enc privHex mode false asn1 = .ok (DecOut.str s)) := by
  constructor
  · intro bs hbs hlen enc henc
    have h := doDecrypt_of_doEncrypt C hL (.inl bs) hbs d hd1 hd2 pk hpk k hk1 hk2
      mode asn1 true privHex hpriv hlen enc henc
    simpa using h
  · intro s hlen enc henc
    have hmb : msgBytes (.inr s) = utf8Bytes s := by
      show hexToArray (utf8ToHex s) = utf8Bytes s
      unfold utf8ToHex
      exact hexToArray_bytesToHex (utf8Bytes_lt s)
    have hbs : ∀ b ∈ msgBytes (.inr s), b < 256 := by
      rw [hmb]; exact utf8Bytes_lt s
    have hlen2 : 2 * (msgBytes (.inr s)).length < 16 ^ 8 := by
      rw [hmb]; exact hlen
    have h := doDecrypt_of_doEncrypt C hL (.inr s) hbs d hd1 hd2 pk hpk k hk1 hk2
      mode asn1 false privHex hpriv hlen2 enc henc
    rw [hmb, arrayToUtf8_utf8Bytes] at h
    simpa using h

/-- Witness for C1: a concrete round trip through `doEncrypt`/`doDecrypt` at
the demo context, in both the byte-buffer and string forms. -/
theorem C1_encrypt_decrypt_witness :
    doDecrypt demoCtx
      ((doEncrypt demoCtx (.inl [104, 105]) (.inr (2 : ZMod 7)) 1 false 3).toOption.getD "")
      "02" 1 true false = .ok (DecOut.arr [104, 105]) ∧
    doDecrypt demoCtx
      ((doEncrypt demoCtx (.inr "hi") (.inr (2 : ZMod 7)) 0 true 3).toOption.getD "")
      "02" 0 false true = .ok (DecOut.str "hi") := by
  have h := C1_encrypt_decrypt demoCtx demoCtx_lawful 2 (by decide) (by decide)
    (.inr (2 : ZMod 7)) (by rfl) "02" (by rfl) 3 (by decide) (by decide) 1 false
  have h0 := C1_encrypt_decrypt demoCtx demoCtx_lawful 2 (by decide) (by decide)
    (.inr (2 : ZMod 7)) (by rfl) "02" (by rfl) 3 (by decide) (by decide) 0 true
  refine ⟨h.1 [104, 105] (by decide) (by decide) _ (by rfl), ?_⟩
  exact h0.2 "hi" (by decide) _ (by rfl)

/-- C6: for every ciphertext that `doDecrypt` parses (into `C1`, `C2`, `C3`)
and every in-range private key, the recomputed hash
`C3' = SM3(x2 || M || y2)` is compared with the received `C3`
case-insensitively (both sides lowercased — the recomputed side is already
lowercase); on a match `doDecrypt` returns the recovered plaintext (bytes
under output `array`, UTF-8 string under output `string`), on a mismatch an
empty result (empty buffer or empty string), and in both cases it returns
`ok` rather than raising an error. -/
theorem C6_hash_check_soft_fail (C : SM2Ctx Pt) (encryptData privHex : String)
    (mode : Nat) (asn1 : Bool) (c1 : Pt) (c2 c3 : String)
    (hparse : decryptParse C encryptData mode asn1 = .ok (c1, c2, c3))
    (dI : Nat) (hpriv : hexToNumber privHex = dI) (hd1 : 1 ≤ dI) (hd2 : dI < C.n)
    (outputArray : Bool) :
    ∃ plain, plain = xorCipherStream C.sm3 (encX2 C (C.smul dI c1))
        (encY2 C (C.smul dI c1)) (hexToArray c2) ∧
      doDecrypt C encryptData privHex mode outputArray asn1 = .ok
        (if strToLower (arrayToHex (C.sm3 (encX2 C (C.smul dI c1) ++ plain ++
            encY2 C (C.smul dI c1)))) = strToLower c3 then
          (if outputArray then DecOut.arr plain else DecOut.str (arrayToUtf8 plain))
        else
          (if outputArray then DecOut.arr [] else DecOut.str "")) := by
  refine ⟨_, rfl, ?_⟩
  unfold doDecrypt
  rw [hparse]
  dsimp only
  rw [hpriv]
  unfold decryptCore
  rw [hexToNumber_multiply_pad C c1 dI hd1 hd2]
  dsimp only
  rw [show strToLower (arrayToHex (C.sm3 (encX2 C (C.smul dI c1) ++
      xorCipherStream C.sm3 (encX2 C (C.smul dI c1)) (encY2 C (C.smul dI c1))
        (hexToArray c2) ++ encY2 C (C.smul dI c1)))) =
      arrayToHex (C.sm3 (encX2 C (C.smul dI c1) ++
      xorCipherStream C.sm3 (encX2 C (C.smul dI c1)) (encY2 C (C.smul dI c1))
        (hexToArray c2) ++ encY2 C (C.smul dI c1))) from strToLower_bytesToHex _]
  simp only [encX2, encY2]
  split
  · rfl
  · rfl

/-- Witness for C6 at a concrete parsed ciphertext whose `C3` field is 64
zeros (a mismatch, so the result is the empty string, still `ok`). -/
theorem C6_hash_check_soft_fail_witness :
    ∃ plain, plain = xorCipherStream demoCtx.sm3
        (encX2 demoCtx (demoCtx.smul 2 (3 : ZMod 7)))
        (encY2 demoCtx (demoCtx.smul 2 (3 : ZMod 7))) (hexToArray "abcd") ∧
      doDecrypt demoCtx
          (encC1 demoCtx (3 : ZMod 7) ++ (⟨List.replicate 64 '0'⟩ : String) ++ "abcd")
          "02" 1 false false = .ok
        (if strToLower (arrayToHex (demoCtx.sm3
            (encX2 demoCtx (demoCtx.smul 2 (3 : ZMod 7)) ++ plain ++
              encY2 demoCtx (demoCtx.smul 2 (3 : ZMod 7))))) =
            strToLower (⟨List.replicate 64 '0'⟩ : String) then
          (if false then DecOut.arr plain else DecOut.str (arrayToUtf8 plain))
        else
          (if false then DecOut.arr [] else DecOut.str "")) :=
  C6_hash_check_soft_fail demoCtx
    (encC1 demoCtx (3 : ZMod 7) ++ (⟨List.replicate 64 '0'⟩ : String) ++ "abcd")
    "02" 1 false (3 : ZMod 7) "abcd" (⟨List.replicate 64 '0'⟩ : String)
    (by rfl) 2 (by rfl) (by decide) (by decide) false

/-! ## Sign/verify round trip -/

theorem sign_verify_arith (n I d k r s : Nat)
    (hI : (I * (d + 1)) % n = 1)
    (hs : (s : Int) = ((I : Int) * ((k : Int) - (r : Int) * (d : Int))) % (n : Int))
    (hr1 : 1 ≤ r) (hr2 : r < n) (hk1 : 1 ≤ k) (hk2 : k < n) (hrk : r + k ≠ n) :
    (r + s) % n ≠ 0 ∧ (s + ((r + s) % n) * d) % n = k % n := by
  have hn1 : 1 < n := by omega
  have h1 : Int.ModEq (n : Int) (s : Int)
      ((I : Int) * ((k : Int) - (r : Int) * (d : Int))) := by
    show (s : Int) % (n : Int) = _ % (n : Int)
    rw [hs]
    exact Int.emod_emod_of_dvd _ dvd_rfl
  have h2 : Int.ModEq (n : Int) ((I : Int) * ((d : Int) + 1)) 1 := by
    show ((I : Int) * ((d : Int) + 1)) % (n : Int) = (1 : Int) % (n : Int)
    have hc : ((I * (d + 1) : Nat) : Int) % ((n : Nat) : Int) =
        (((I * (d + 1)) % n : Nat) : Int) := (Int.natCast_mod _ _).symm
    rw [hI] at hc
    push_cast at hc
    rw [hc]
    symm
    exact Int.emod_eq_of_lt (by norm_num) (by exact_mod_cast hn1)
  have hconv : Int.ModEq (n : Int) (((d : Int) + 1) * (s : Int))
      ((k : Int) - (r : Int) * (d : Int)) := by
    have hA := Int.ModEq.mul_left ((d : Int) + 1) h1
    have hC := Int.ModEq.mul_right ((k : Int) - (r : Int) * (d : Int)) h2
    have hB : ((d : Int) + 1) * ((I : Int) * ((k : Int) - (r : Int) * (d : Int))) =
        ((I : Int) * ((d : Int) + 1)) * ((k : Int) - (r : Int) * (d : Int)) := by ring
    rw [hB] at hA
    have hD := hA.trans hC
    rwa [one_mul] at hD
  constructor
  · intro h0
    have h0i : Int.ModEq (n : Int) ((r : Int) + (s : Int)) 0 := by
      show ((r : Int) + (s : Int)) % (n : Int) = (0 : Int) % (n : Int)
      have hc : (((r + s) % n : Nat) : Int) = ((0 : Nat) : Int) := by rw [h0]
      rw [Int.natCast_mod] at hc
      push_cast at hc
      rw [hc, Int.zero_emod]
    have h3 := Int.ModEq.mul_left ((d : Int) + 1) h0i
    have h4 : Int.ModEq (n : Int) ((r : Int) + (k : Int))
        (((d : Int) + 1) * ((r : Int) + (s : Int))) := by
      have h5 := Int.ModEq.add_left (((d : Int) + 1) * (r : Int)) hconv
      have e1 : ((d : Int) + 1) * (r : Int) + ((d : Int) + 1) * (s : Int) =
          ((d : Int) + 1) * ((r : Int) + (s : Int)) := by ring
      have e2 : ((d : Int) + 1) * (r : Int) + ((k : Int) - (r : Int) * (d : Int)) =
          (r : Int) + (k : Int) := by ring
      rw [e1, e2] at h5
      exact h5.symm
    have h6 : Int.ModEq (n : Int) ((r : Int) + (k : Int)) 0 := by
      have h7 := h4.trans h3
      simpa using h7
    have hdvd : (n : Int) ∣ ((r : Int) + (k : Int)) := by
      have h8 : ((r : Int) + (k : Int)) % (n : Int) = (0 : Int) % (n : Int) := h6
      rw [Int.zero_emod] at h8
      exact Int.dvd_of_emod_eq_zero h8
    have hdvdn : n ∣ (r + k) := by
      have hc : ((r + k : Nat) : Int) = (r : Int) + (k : Int) := by push_cast; ring
      rw [← hc] at hdvd
      exact Int.natCast_dvd_natCast.mp hdvd
    obtain ⟨c, hc⟩ := hdvdn
    have hc2 : c < 2 := by
      by_contra hge
      push_neg at hge
      have h9 : n * 2 ≤ n * c := Nat.mul_le_mul_left n hge
      omega
    have hc1 : c ≠ 0 := by rintro rfl; omega
    have hcone : c = 1 := by omega
    rw [hcone] at hc
    omega
  · have ht : Int.ModEq (n : Int) ((((r + s) % n : Nat)) : Int) ((r : Int) + (s : Int)) := by
      show ((((r + s) % n : Nat)) : Int) % (n : Int) = ((r : Int) + (s : Int)) % (n : Int)
      rw [Int.natCast_mod]
      push_cast
      exact Int.emod_emod_of_dvd _ dvd_rfl
    have h7 := Int.ModEq.mul_right (d : Int) ht
    have h8 := Int.ModEq.add_left (s : Int) h7
    have h9 : Int.ModEq (n : Int) ((s : Int) + ((r : Int) + (s : Int)) * (d : Int))
        (k : Int) := by
      have h10 := Int.ModEq.add_right ((r : Int) * (d : Int)) hconv
      have e1 : ((d : Int) + 1) * (s : Int) + (r : Int) * (d : Int) =
          (s : Int) + ((r : Int) + (s : Int)) * (d : Int) := by ring
      have e2 : ((k : Int) - (r : Int) * (d : Int)) + (r : Int) * (d : Int) = (k : Int) := by
        ring
      rw [e1, e2] at h10
      exact h10
    have h11 := h8.trans h9
    have h12 : ((s + ((r + s) % n) * d : Nat) : Int) % (n : Int) =
        ((k : Nat) : Int) % (n : Int) := by
      have hcast : ((s + ((r + s) % n) * d : Nat) : Int) =
          (s : Int) + ((((r + s) % n : Nat)) : Int) * (d : Int) := by
        rw [Nat.cast_add, Nat.cast_mul]
      rw [hcast]
      exact h11
    rw [← Int.natCast_mod, ← Int.natCast_mod] at h12
    exact Nat.cast_injective h12

theorem verifyRS_correct (C : SM2Ctx Pt) (hL : C.Lawful) (hashHex : String)
    (dA : Nat) (hd1 : 1 ≤ dA) (hd2 : dA + 1 < C.n)
    (k : Nat) (hk1 : 1 ≤ k) (hk2 : k < C.n)
    (pk : String ⊕ Pt) (hpk : resolvePublicKey C pk = .ok (C.smul dA C.G))
    (r s : Nat)
    (hr : r = (hexToNumber hashHex + C.xc (C.smul k C.G)) % C.n)
    (hrne : r ≠ 0) (hsne : s ≠ 0) (hrk : r + k ≠ C.n)
    (hs : s = nobleMod ((C.inv (dA + 1) : Int) *
      ((k : Int) - (r : Int) * (dA : Int))) C.n) :
    verifyRS C hashHex r s pk = .ok true := by
  have hn0 : 0 < C.n := hL.n_prime.pos
  have hr2 : r < C.n := by rw [hr]; exact Nat.mod_lt _ hn0
  have hr1 : 1 ≤ r := by omega
  have hI : (C.inv (dA + 1) * (dA + 1)) % C.n = 1 := by
    apply hL.inv_spec
    rw [Nat.mod_eq_of_lt hd2]
    have hnd : ¬ C.n ∣ (dA + 1) := by
      intro hdv
      have := Nat.le_of_dvd (by omega) hdv
      omega
    exact Nat.coprime_comm.mp ((Nat.Prime.coprime_iff_not_dvd hL.n_prime).mpr hnd)
  have hsint : (s : Int) = ((C.inv (dA + 1) : Int) *
      ((k : Int) - (r : Int) * (dA : Int))) % (C.n : Int) := by
    rw [hs]
    unfold nobleMod
    exact Int.toNat_of_nonneg (Int.emod_nonneg _ (by exact_mod_cast hn0.ne'))
  obtain ⟨hT, hB⟩ := sign_verify_arith C.n (C.inv (dA + 1)) dA k r s hI hsint
    hr1 hr2 hk1 hk2 hrk
  have hslt : s < C.n := by
    rw [hs]; exact nobleMod_lt _ _ hn0
  have hs1 : 1 ≤ s := by omega
  have ht1 : 1 ≤ (r + s) % C.n := by omega
  have ht2 : (r + s) % C.n < C.n := Nat.mod_lt _ hn0
  unfold verifyRS
  rw [hpk]
  dsimp only
  rw [if_neg hT]
  rw [hexToNumber_multiply_pad C C.G s hs1 hslt]
  rw [hexToNumber_multiply_pad C _ ((r + s) % C.n) ht1 ht2]
  dsimp only
  rw [hL.smul_smul, hL.add_smul]
  have hp : C.smul (s + (r + s) % C.n * dA) C.G = C.smul k C.G := by
    rw [← hL.smul_mod (s + (r + s) % C.n * dA), ← hL.smul_mod k, hB]
  rw [hp, ← hr]
  simp

theorem verify_reduce (C : SM2Ctx Pt) (msg : List Nat ⊕ String) (signHex : String)
    (pk : String ⊕ Pt) (der hash : Bool) (userId : Option String) (h : String)
    (hh : (if hash then getHash C (verifyMsgData msg) (pubKeyHexInput C pk) userId
      else .ok (msgHex msg)) = .ok h)
    (r s : Nat)
    (hrs : (if der then
        match decodeDer signHex with
        | some rs => Except.ok rs
        | none => Except.error "decodeDer: malformed"
      else Except.ok (hexToNumber (⟨signHex.data.take 64⟩ : String),
        hexToNumber (⟨signHex.data.drop 64⟩ : String))) = Except.ok ((r, s) : Nat × Nat)) :
    doVerifySignature C msg signHex pk der hash userId = verifyRS C h r s pk := by
  unfold doVerifySignature
  dsimp only
  rw [hh]
  dsimp only
  rw [hrs]
  dsimp only
  unfold verifyRS
  rfl

theorem raw_sig_parse (r s : Nat) (hr : r < 2 ^ 256) :
    hexToNumber (⟨(leftPad (numberToHexUnpadded r) 64 ++
      leftPad (numberToHexUnpadded s) 64).data.take 64⟩ : String) = r ∧
    hexToNumber (⟨(leftPad (numberToHexUnpadded r) 64 ++
      leftPad (numberToHexUnpadded s) 64).data.drop 64⟩ : String) = s := by
  have hdata : (leftPad (numberToHexUnpadded r) 64 ++
      leftPad (numberToHexUnpadded s) 64).data =
      (leftPad (numberToHexUnpadded r) 64).data ++
        (leftPad (numberToHexUnpadded s) 64).data := data_append _ _
  rw [hdata]
  rw [take_len_append _ _ 64 (length_pad64_of_lt hr)]
  rw [drop_len_append _ _ 64 (length_pad64_of_lt hr)]
  exact ⟨hexToNumber_pad64 r, hexToNumber_pad64 s⟩

theorem getHash_sign_verify_eq (C : SM2Ctx Pt) (msg : List Nat ⊕ String)
    (hm : ∀ bs, msg = .inl bs → ∀ b ∈ bs, b < 256) (pkHex : String)
    (uid : Option String) :
    getHash C (.inl (msgHex msg)) pkHex uid = getHash C (verifyMsgData msg) pkHex uid := by
  cases msg with
  | inr s => rfl
  | inl bs =>
    unfold getHash
    cases hz : getZ C pkHex uid with
    | error e => rfl
    | ok z =>
      dsimp only
      have hb : hexToArray (msgHex (Sum.inl bs)) = bs := hexToArray_bytesToHex (hm bs rfl)
      rw [hb]
      rfl

/-- C2: for every valid keypair `(dA, P)` with `P = dA·G` and every message
`M`, verifying the signature produced by `doSignature(M, dA, opts)` with
`doVerifySignature(M, ·, P, opts)` under matching options returns `true`, for
every combination of the Z pre-hash on/off and raw-hex versus DER framing,
and for every ephemeral point stream the signing loop accepts a candidate
from (well-formed pool entries `{k, x1 = x(k·G)}` with `k ∈ [1, n-1]`). -/
theorem C2_sign_verify (C : SM2Ctx Pt) (hL : C.Lawful)
    (dA : Nat) (hd1 : 1 ≤ dA) (hd2 : dA + 1 < C.n)
    (privHex : String) (hpriv : hexToNumber privHex = dA)
    (pk : String ⊕ Pt) (hpk : resolvePublicKey C pk = .ok (C.smul dA C.G))
    (hpkhex : pubKeyHexInput C pk = getPublicKeyFromPrivateKey C privHex)
    (msg : List Nat ⊕ String) (hm : ∀ bs, msg = .inl bs → ∀ b ∈ bs, b < 256)
    (points : List SigPoint)
    (hpts : ∀ pt ∈ points, 1 ≤ pt.k ∧ pt.k < C.n ∧ pt.x1 = C.xc (C.smul pt.k C.G))
    (der hash : Bool) (userId : Option String) (sig : String)
    (hsig : doSignature C msg privHex points der hash none userId = .ok sig) :
    doVerifySignature C msg sig pk der hash userId = .ok true := by
  unfold doSignature at hsig
  cases hHH : signHashHex C msg privHex hash none userId with
  | error e =>
    rw [hHH] at hsig
    dsimp only at hsig
    exact Except.noConfusion hsig
  | ok hashHex =>
    rw [hHH] at hsig
    dsimp only at hsig
    rw [hpriv] at hsig
    cases hloop : signLoop C (hexToNumber hashHex) dA points with
    | none =>
      rw [hloop] at hsig
      dsimp only at hsig
      exact Except.noConfusion hsig
    | some rsk =>
      obtain ⟨r, s, k⟩ := rsk
      rw [hloop] at hsig
      dsimp only at hsig
      injection hsig with hsig2
      subst hsig2
      obtain ⟨hrne, hsne, hrk, pt, hptmem, hptk, hr, hs⟩ :=
        signLoop_spec C (hexToNumber hashHex) dA points r s k hloop
      obtain ⟨hk1, hk2, hx1⟩ := hpts pt hptmem
      rw [hptk] at hk1 hk2
      rw [hx1, hptk] at hr
      have hn0 : 0 < C.n := hL.n_prime.pos
      have hr2 : r < C.n := by rw [hr]; exact Nat.mod_lt _ hn0
      have hrlt : r < 2 ^ 256 := lt_of_lt_of_le hr2 hL.n_le
      have hslt : s < C.n := by rw [hs]; exact nobleMod_lt _ _ hn0
      have hs256 : s < 2 ^ 256 := lt_of_lt_of_le hslt hL.n_le
      have hhv : (if hash then
          getHash C (verifyMsgData msg) (pubKeyHexInput C pk) userId
          else .ok (msgHex msg)) = .ok hashHex := by
        cases hash with
        | false =>
          rw [if_neg (show ¬ ((false : Bool) = true) from by simp)]
          unfold signHashHex at hHH
          rw [if_neg (show ¬ ((false : Bool) = true) from by simp)] at hHH
          exact hHH
        | true =>
          rw [if_pos (show (true : Bool) = true from rfl)]
          unfold signHashHex at hHH
          rw [if_pos (show (true : Bool) = true from rfl)] at hHH
          simp only [Option.getD_none] at hHH
          rw [hpkhex, ← getHash_sign_verify_eq C msg hm _ userId]
          exact hHH
      cases der with
      | true =>
        show doVerifySignature C msg (encodeDer r s) pk true hash userId = .ok true
        have hparse : decodeDer (encodeDer r s) = some (r, s) :=
          decodeDer_encodeDer hrlt hs256
        have hrs : (match decodeDer (encodeDer r s) with
            | some rs => Except.ok rs
            | none => Except.error "decodeDer: malformed") =
            Except.ok ((r, s) : Nat × Nat) := by
          rw [hparse]
        rw [verify_reduce C msg (encodeDer r s) pk true hash userId hashHex hhv r s hrs]
        exact verifyRS_correct C hL hashHex dA hd1 hd2 k hk1 hk2 pk hpk r s
          hr hrne hsne hrk hs
      | false =>
        show doVerifySignature C msg (leftPad (numberToHexUnpadded r) 64 ++
          leftPad (numberToHexUnpadded s) 64) pk false hash userId = .ok true
        have hpr := raw_sig_parse r s hrlt
        have hrs : (Except.ok (hexToNumber
            (⟨(leftPad (numberToHexUnpadded r) 64 ++
              leftPad (numberToHexUnpadded s) 64).data.take 64⟩ : String),
            hexToNumber (⟨(leftPad (numberToHexUnpadded r) 64 ++
              leftPad (numberToHexUnpadded s) 64).data.drop 64⟩ : String)) :
            Except String (Nat × Nat)) = Except.ok ((r, s) : Nat × Nat) := by
          rw [hpr.1, hpr.2]
        rw [verify_reduce C msg (leftPad (numberToHexUnpadded r) 64 ++
          leftPad (numberToHexUnpadded s) 64) pk false hash userId hashHex hhv r s hrs]
        exact verifyRS_correct C hL hashHex dA hd1 hd2 k hk1 hk2 pk hpk r s
          hr hrne hsne hrk hs

/-- Witness for C2: concrete sign/verify round trips at the demo context —
raw framing without the Z pre-hash, and DER framing with it. -/
theorem C2_sign_verify_witness :
    doVerifySignature demoCtx (.inr "hi")
      ((doSignature demoCtx (.inr "hi") "02" [⟨3, 3⟩] false false
        none none).toOption.getD "")
      (.inr (2 : ZMod 7)) false false none = .ok true ∧
    doVerifySignature demoCtx (.inr "hi")
      ((doSignature demoCtx (.inr "hi") "02"
        [⟨1, 1⟩, ⟨2, 2⟩, ⟨3, 3⟩, ⟨4, 4⟩, ⟨5, 5⟩, ⟨6, 6⟩] true true
        none none).toOption.getD "")
      (.inr (2 : ZMod 7)) true true none = .ok true := by
  constructor
  · exact C2_sign_verify demoCtx demoCtx_lawful 2 (by decide) (by decide) "02" (by rfl)
      (.inr (2 : ZMod 7)) (by rfl) (by rfl)
      (.inr "hi") (fun bs hbs => Sum.noConfusion hbs)
      [⟨3, 3⟩] (by
        intro pt hpt
        rw [List.mem_singleton] at hpt
        subst hpt
        exact ⟨by decide, by decide, by decide⟩)
      false false none _ (by rfl)
  · exact C2_sign_verify demoCtx demoCtx_lawful 2 (by decide) (by decide) "02" (by rfl)
      (.inr (2 : ZMod 7)) (by rfl) (by rfl)
      (.inr "hi") (fun bs hbs => Sum.noConfusion hbs)
      [⟨1, 1⟩, ⟨2, 2⟩, ⟨3, 3⟩, ⟨4, 4⟩, ⟨5, 5⟩, ⟨6, 6⟩] (by
        intro pt hpt
        simp only [List.mem_cons, List.not_mem_nil, or_false] at hpt
        rcases hpt with rfl | rfl | rfl | rfl | rfl | rfl <;>
          exact ⟨by decide, by decide, by decide⟩)
      true true none _ (by rfl)

end SmCrypto
